import Mathlib

/-!
Verification development for the Uno game engine in `src/src/uno.js`.

This file gives a shallow embedding of the engine's data model and
operations.  JavaScript numbers used as bitfields are modelled as `Nat`
(all face values are small non-negative integers, so no overflow is
involved); fallible or message-only behaviour is modelled by returning
the unchanged state; the calls to `Math.random()` are modelled by
explicit choice parameters (an in-range random index `i` into a list of
length `n` is modelled as `i % n` for a caller-supplied `i : Nat`).
Discord messaging, channel management and timers carry no game state and
are dropped.  Where the source would throw on an out-of-range player
index (states the game loop never produces), the model leaves the state
unchanged; each such spot is noted in a comment.
-/

/-! ## Enums: `Uno.Color` and `Uno.CardFace` (uno.js lines 236-310) -/

namespace Color

def NONE : Nat := 0

def RED : Nat := 1

def BLUE : Nat := 2

def GREEN : Nat := 3

def YELLOW : Nat := 4

end Color

namespace CardFace

def EFFECT_MASK : Nat := 0xFF000

def BASE_MASK : Nat := 0x00FFF

def WILD_EFFECT : Nat := 0x01000

def SKIP_EFFECT : Nat := 0x02000

def REVERSE_EFFECT : Nat := 0x04000

def DRAW_TWO_EFFECT : Nat := 0x08000

def DRAW_FOUR_EFFECT : Nat := 0x10000

def SKIP : Nat := 0x02010

def DRAW_TWO : Nat := 0x0A020

def REVERSE : Nat := 0x04030

def WILD : Nat := 0x01040

def DRAW_FOUR : Nat := 0x13050

def ZERO : Nat := 0x0

def ONE : Nat := 0x1

def TWO : Nat := 0x2

def THREE : Nat := 0x3

def FOUR : Nat := 0x4

def FIVE : Nat := 0x5

def SIX : Nat := 0x6

def SEVEN : Nat := 0x7

def EIGHT : Nat := 0x8

def NINE : Nat := 0x9

end CardFace

/-- The fifteen real card face values (the `CardFace` entries that are not
`_EFFECT` or `_MASK` entries, deduplicated), i.e. the faces `parseToCard`
can produce and the faces occurring in the deck. -/
def canonicalFaces : List Nat :=
  [CardFace.ZERO, CardFace.ONE, CardFace.TWO, CardFace.THREE, CardFace.FOUR,
   CardFace.FIVE, CardFace.SIX, CardFace.SEVEN, CardFace.EIGHT, CardFace.NINE,
   CardFace.SKIP, CardFace.DRAW_TWO, CardFace.REVERSE, CardFace.WILD,
   CardFace.DRAW_FOUR]

/-! ## Data model -/

/-- Model of `Uno.Card` (uno.js line 342): a face value and a color. -/
structure Card where
  face : Nat
  color : Nat
  deriving DecidableEq, Repr, Inhabited

/-- Model of `Uno.Player` / `Uno.NPC`: the fields the game rules read.
`npc` distinguishes the two variants (`Player.npc = false`, `NPC.npc = true`).
Discord ids are modelled as `Nat`. -/
structure Player where
  id : Nat
  npc : Bool
  calledUno : Bool
  hand : List Card
  deriving DecidableEq, Repr, Inhabited

/-- Model of the mutable closure state of `Uno.Game`: the player array, the
`discarded` pool (all cards not in a hand and not the top card), `topCard`,
the `turn` and `previousTurn` indices (`-1` meaning none), the play
`direction`, the `started` flag and the creator's id. -/
structure Game where
  players : List Player
  discarded : List Card
  topCard : Option Card
  turn : Int
  previousTurn : Int
  direction : Int
  started : Bool
  makerId : Nat
  deriving DecidableEq, Repr, Inhabited

def defaultCard : Card := ⟨0, 0⟩

def defaultPlayer : Player := ⟨0, false, false, []⟩

/-! ## List helpers (modelling in-place array mutation) -/

/-- Replace the element at index `i` by `f` applied to it; identity when `i`
is out of range.  Models in-place mutation of `players[i]`. -/
def modifyIdx {α : Type} : List α → Nat → (α → α) → List α
  | [], _, _ => []
  | x :: xs, 0, f => f x :: xs
  | x :: xs, n + 1, f => x :: modifyIdx xs n f

/-- First index whose element satisfies `p`; models `Array.findIndex`
(returning `none` instead of `-1`). -/
def findIdxO {α : Type} (p : α → Bool) : List α → Option Nat
  | [] => none
  | x :: xs => if p x then some 0 else (findIdxO p xs).map (· + 1)

/-- Comparator used to sort a human player's hand (uno.js lines 1038-1044):
ascending by face, ties broken ascending by color. -/
def cardLE (a b : Card) : Bool :=
  if a.face == b.face then a.color ≤ b.color else a.face ≤ b.face

def insertSorted (c : Card) : List Card → List Card
  | [] => [c]
  | x :: xs => if cardLE c x then c :: x :: xs else x :: insertSorted c xs

/-- Sorting of a human hand.  The JS comparator induces a total order whose
ties are only between identical cards, so any correct sort produces the
same list; we use insertion sort. -/
def sortHand : List Card → List Card
  | [] => []
  | x :: xs => insertSorted x (sortHand xs)

/-! ## Card predicates -/

/-- Model of `checkCard(card, card2)` (uno.js lines 1271-1278) with the
card to check against passed explicitly (at all call sites it is the
current `topCard`). -/
def checkCard (card card2 : Card) : Bool :=
  if card.face &&& CardFace.WILD_EFFECT != 0 then true
  else
    ((card.face &&& CardFace.BASE_MASK) == (card2.face &&& CardFace.BASE_MASK)) ||
      (card.color == card2.color)

/-- The acceptance condition applied to a human-parsed card in `playCard`
(uno.js lines 1148-1150): the play is rejected unless this holds. -/
def humanPlayAccepts (parsed top : Card) : Bool :=
  (parsed.face == top.face) ||
    ((parsed.face &&& CardFace.WILD_EFFECT != 0) || (parsed.color == top.color))

/-! ## The deck: `getHand` (uno.js lines 1757-1818) -/

/-- The standard 108-card deck, in the order built by `getHand()`. -/
def getHand : List Card :=
  [Card.mk CardFace.ZERO Color.RED, Card.mk CardFace.ZERO Color.GREEN,
   Card.mk CardFace.ZERO Color.YELLOW, Card.mk CardFace.ZERO Color.BLUE,
   Card.mk CardFace.ONE Color.RED, Card.mk CardFace.ONE Color.RED,
   Card.mk CardFace.ONE Color.GREEN, Card.mk CardFace.ONE Color.GREEN,
   Card.mk CardFace.ONE Color.YELLOW, Card.mk CardFace.ONE Color.YELLOW,
   Card.mk CardFace.ONE Color.BLUE, Card.mk CardFace.ONE Color.BLUE,
   Card.mk CardFace.TWO Color.RED, Card.mk CardFace.TWO Color.RED,
   Card.mk CardFace.TWO Color.GREEN, Card.mk CardFace.TWO Color.GREEN,
   Card.mk CardFace.TWO Color.YELLOW, Card.mk CardFace.TWO Color.YELLOW,
   Card.mk CardFace.TWO Color.BLUE, Card.mk CardFace.TWO Color.BLUE,
   Card.mk CardFace.THREE Color.RED, Card.mk CardFace.THREE Color.RED,
   Card.mk CardFace.THREE Color.GREEN, Card.mk CardFace.THREE Color.GREEN,
   Card.mk CardFace.THREE Color.YELLOW, Card.mk CardFace.THREE Color.YELLOW,
   Card.mk CardFace.THREE Color.BLUE, Card.mk CardFace.THREE Color.BLUE,
   Card.mk CardFace.FOUR Color.RED, Card.mk CardFace.FOUR Color.RED,
   Card.mk CardFace.FOUR Color.GREEN, Card.mk CardFace.FOUR Color.GREEN,
   Card.mk CardFace.FOUR Color.YELLOW, Card.mk CardFace.FOUR Color.YELLOW,
   Card.mk CardFace.FOUR Color.BLUE, Card.mk CardFace.FOUR Color.BLUE,
   Card.mk CardFace.FIVE Color.RED, Card.mk CardFace.FIVE Color.RED,
   Card.mk CardFace.FIVE Color.GREEN, Card.mk CardFace.FIVE Color.GREEN,
   Card.mk CardFace.FIVE Color.YELLOW, Card.mk CardFace.FIVE Color.YELLOW,
   Card.mk CardFace.FIVE Color.BLUE, Card.mk CardFace.FIVE Color.BLUE,
   Card.mk CardFace.SIX Color.RED, Card.mk CardFace.SIX Color.RED,
   Card.mk CardFace.SIX Color.GREEN, Card.mk CardFace.SIX Color.GREEN,
   Card.mk CardFace.SIX Color.YELLOW, Card.mk CardFace.SIX Color.YELLOW,
   Card.mk CardFace.SIX Color.BLUE, Card.mk CardFace.SIX Color.BLUE,
   Card.mk CardFace.SEVEN Color.RED, Card.mk CardFace.SEVEN Color.RED,
   Card.mk CardFace.SEVEN Color.GREEN, Card.mk CardFace.SEVEN Color.GREEN,
   Card.mk CardFace.SEVEN Color.YELLOW, Card.mk CardFace.SEVEN Color.YELLOW,
   Card.mk CardFace.SEVEN Color.BLUE, Card.mk CardFace.SEVEN Color.BLUE,
   Card.mk CardFace.EIGHT Color.RED, Card.mk CardFace.EIGHT Color.RED,
   Card.mk CardFace.EIGHT Color.GREEN, Card.mk CardFace.EIGHT Color.GREEN,
   Card.mk CardFace.EIGHT Color.YELLOW, Card.mk CardFace.EIGHT Color.YELLOW,
   Card.mk CardFace.EIGHT Color.BLUE, Card.mk CardFace.EIGHT Color.BLUE,
   Card.mk CardFace.NINE Color.RED, Card.mk CardFace.NINE Color.RED,
   Card.mk CardFace.NINE Color.GREEN, Card.mk CardFace.NINE Color.GREEN,
   Card.mk CardFace.NINE Color.YELLOW, Card.mk CardFace.NINE Color.YELLOW,
   Card.mk CardFace.NINE Color.BLUE, Card.mk CardFace.NINE Color.BLUE,
   Card.mk CardFace.DRAW_TWO Color.RED, Card.mk CardFace.DRAW_TWO Color.RED,
   Card.mk CardFace.DRAW_TWO Color.GREEN, Card.mk CardFace.DRAW_TWO Color.GREEN,
   Card.mk CardFace.DRAW_TWO Color.YELLOW, Card.mk CardFace.DRAW_TWO Color.YELLOW,
   Card.mk CardFace.DRAW_TWO Color.BLUE, Card.mk CardFace.DRAW_TWO Color.BLUE,
   Card.mk CardFace.SKIP Color.RED, Card.mk CardFace.SKIP Color.RED,
   Card.mk CardFace.SKIP Color.GREEN, Card.mk CardFace.SKIP Color.GREEN,
   Card.mk CardFace.SKIP Color.YELLOW, Card.mk CardFace.SKIP Color.YELLOW,
   Card.mk CardFace.SKIP Color.BLUE, Card.mk CardFace.SKIP Color.BLUE,
   Card.mk CardFace.REVERSE Color.RED, Card.mk CardFace.REVERSE Color.RED,
   Card.mk CardFace.REVERSE Color.GREEN, Card.mk CardFace.REVERSE Color.GREEN,
   Card.mk CardFace.REVERSE Color.YELLOW, Card.mk CardFace.REVERSE Color.YELLOW,
   Card.mk CardFace.REVERSE Color.BLUE, Card.mk CardFace.REVERSE Color.BLUE,
   Card.mk CardFace.WILD Color.NONE, Card.mk CardFace.WILD Color.NONE,
   Card.mk CardFace.WILD Color.NONE, Card.mk CardFace.WILD Color.NONE,
   Card.mk CardFace.DRAW_FOUR Color.NONE, Card.mk CardFace.DRAW_FOUR Color.NONE,
   Card.mk CardFace.DRAW_FOUR Color.NONE, Card.mk CardFace.DRAW_FOUR Color.NONE]

/-! ## Game operations -/

/-- Look up `players[i]` for a possibly negative index. -/
def playerAt (g : Game) (i : Int) : Option Player :=
  if i < 0 then none else g.players.get? i.toNat

/-- Random-choice parameters consumed by one `playCard` invocation.
`firstIdx` models the random pick of the game's first card; `wildColor`
models `Math.floor(Math.random() * 4)` (the chosen color is
`wildColor % 4 + 1`); `colorPick` models the NPC's random pick among the
colors held in its hand; `nextStart` models the random starting player in
`nextTurn`; `drawPicks` models the random splice indices of `drawCards`. -/
structure Choices where
  firstIdx : Nat
  wildColor : Nat
  colorPick : Nat
  nextStart : Nat
  drawPicks : List Nat
  deriving Repr, Inhabited

/-- One step of the index arithmetic of `nextTurn` (uno.js lines 990-992):
add the direction, then wrap a single step out of range. -/
def stepIdx (t d : Int) (len : Nat) : Int :=
  let t1 := t + d
  let t2 := if t1 < 0 then (len : Int) - 1 else t1
  if t2 > (len : Int) - 1 then 0 else t2

/-- Model of `nextTurn(skip)` (uno.js lines 983-1002).  The `skip` argument
only selects which message is sent and whether the NPC timer is armed, so
it does not appear in the state transition.  `start` models the uniformly
random starting player chosen when `turn == -1`. -/
def nextTurn (g : Game) (start : Nat) : Game :=
  let t0 : Int := if g.turn = -1 then ((start % g.players.length : Nat) : Int) else g.turn
  { g with turn := stepIdx t0 g.direction g.players.length }

/-- The draw loop of `drawCards` (uno.js lines 1027-1035): repeatedly splice
a random card out of the pool, resetting a wild card's color to `NONE`,
stopping early when the pool is empty.  Returns the drawn cards in draw
order and the remaining pool. -/
def drawLoop : List Card → Nat → List Nat → List Card × List Card
  | pool, 0, _ => ([], pool)
  | pool, n + 1, picks =>
    if pool.length = 0 then ([], pool)
    else
      let i := picks.headD 0 % pool.length
      let single := pool.getD i defaultCard
      let single :=
        if single.face &&& CardFace.WILD_EFFECT != 0 then { single with color := Color.NONE }
        else single
      let rest := drawLoop (pool.eraseIdx i) n picks.tail
      (single :: rest.1, rest.2)

/-- Model of `drawCards(num, silent)` (uno.js lines 1025-1062): the current
player receives the drawn cards prepended to their hand (sorted afterwards
for a human player) and their `calledUno` flag is cleared.  The `silent`
flag only selects messages.  If `turn` does not index a player the source
would throw before mutating any hand; the model leaves the state
unchanged (the game loop never produces that case). -/
def drawCards (g : Game) (num : Nat) (picks : List Nat) : Game :=
  if 0 ≤ g.turn ∧ g.turn.toNat < g.players.length then
    let res := drawLoop g.discarded num picks
    { g with
      discarded := res.2,
      players := modifyIdx g.players g.turn.toNat (fun p =>
        { p with
          hand := if p.npc then res.1 ++ p.hand else sortHand (res.1 ++ p.hand),
          calledUno := false }) }
  else g

/-- Model of `drawAndSkip(num)` (uno.js lines 1011-1015). -/
def drawAndSkip (g : Game) (num : Nat) (picks : List Nat) (start : Nat) : Game :=
  nextTurn (drawCards g num picks) start

/-- First block of `callUno` (uno.js lines 1289-1294): the current player
calls ahead of playing down to one card. -/
def callUnoCurrent (g : Game) (caller : Nat) : Game :=
  match playerAt g g.turn with
  | some p =>
    if p.id == caller && !p.calledUno && p.hand.length == 2 then
      { g with
        players := modifyIdx g.players g.turn.toNat (fun q => { q with calledUno := true }) }
    else g
  | none => g

/-- Second block of `callUno` (uno.js lines 1296-1302): the previous player
calls retroactively, escaping the penalty. -/
def callUnoPrevious (g : Game) (caller : Nat) : Game :=
  match playerAt g g.previousTurn with
  | some p =>
    if p.id == caller && !p.calledUno && p.hand.length == 1 then
      { g with
        players := modifyIdx g.players g.previousTurn.toNat
          (fun q => { q with calledUno := true }) }
    else g
  | none => g

/-- Third block of `callUno` (uno.js lines 1303-1312): if the previous
player still has not called with one card in hand, they draw 2 penalty
cards; the turn pointer is swapped to them for the draw and restored. -/
def callUnoPenalty (g : Game) (picks : List Nat) : Game :=
  match playerAt g g.previousTurn with
  | some p =>
    if !p.calledUno && p.hand.length == 1 then
      let g3 := drawCards { g with turn := g.previousTurn } 2 picks
      { g3 with turn := g.turn }
    else g
  | none => g

/-- Model of `callUno(caller)` (uno.js lines 1288-1314): the three blocks in
source order, the second and third guarded by `previousTurn > -1`. -/
def callUno (g : Game) (caller : Nat) (picks : List Nat) : Game :=
  let g1 := callUnoCurrent g caller
  if g1.previousTurn > -1 then callUnoPenalty (callUnoPrevious g1 caller) picks
  else g1

/-- Model of `endGame()` (uno.js lines 914-921): every hand is emptied into
the pool and the turn resets. -/
def endGame (g : Game) : Game :=
  { g with
    started := false,
    turn := -1,
    discarded := g.discarded ++ (g.players.map Player.hand).flatten,
    players := g.players.map (fun p => { p with hand := [] }) }

/-- The tail of `playCard` shared by all three entry branches (uno.js lines
1170-1227): commit the selected card as the new top card (pushing the old
top card into the pool, applying a chosen wild color), detect a win, then
resolve reverse/skip/draw effects and advance the turn.  `newHandLen` is
the length of the hand the card was spliced out of. -/
def finishPlay (g : Game) (card : Card) (color : Option Nat) (newHandLen : Nat)
    (ch : Choices) : Game × Bool :=
  let g1 :=
    match g.topCard with
    | some tc => { g with discarded := g.discarded ++ [tc] }
    | none => g
  let card1 :=
    match color with
    | some c => { card with color := c }
    | none => card
  let g2 := { g1 with topCard := some card1 }
  if newHandLen = 0 then
    let isNpc :=
      match playerAt g2 g2.turn with
      | some p => p.npc
      | none => false
    (if isNpc then endGame g2 else g2, true)
  else
    let g3 := { g2 with previousTurn := g2.turn }
    let revBit := card1.face &&& CardFace.REVERSE_EFFECT != 0
    let skipping := revBit && g3.players.length == 2
    let g4 := if revBit then { g3 with direction := -g3.direction } else g3
    let skipFlag := skipping || (card1.face &&& CardFace.SKIP_EFFECT != 0)
    let g5 := nextTurn g4 ch.nextStart
    let g6 := if card1.face &&& CardFace.DRAW_TWO_EFFECT != 0 then drawCards g5 2 ch.drawPicks else g5
    let g7 := if card1.face &&& CardFace.DRAW_FOUR_EFFECT != 0 then drawCards g6 4 ch.drawPicks else g6
    let g8 := if skipFlag then nextTurn g7 ch.nextStart else g7
    (g8, false)

/-- The first-play branch of `playCard` (uno.js lines 1076-1084): with
`turn == -1` a uniformly random card of the pool is played with no
restriction, choosing a random color if it is a wild kind. -/
def firstPlay (g : Game) (ch : Choices) : Game × Bool :=
  if g.discarded.length = 0 then (g, false)
  else
    let selected := ch.firstIdx % g.discarded.length
    let card := g.discarded.getD selected defaultCard
    let color : Option Nat :=
      if card.face &&& CardFace.WILD_EFFECT != 0 then some (ch.wildColor % 4 + 1) else none
    let g2 := { g with discarded := g.discarded.eraseIdx selected }
    finishPlay g2 card color g2.discarded.length ch

/-- The color list an NPC chooses a wild color from (uno.js lines 1108-1114):
the distinct non-`NONE` colors of its hand in order of first occurrence. -/
def collectColors (hand : List Card) : List Nat :=
  hand.foldl (fun acc el =>
    if el.color != Color.NONE && !(acc.contains el.color) then acc ++ [el.color] else acc) []

/-- The NPC selection loop of `playCard` (uno.js lines 1097-1102): starting
from the end of the hand, decrement until a card legal against `top` is
found; `none` when the whole hand is illegal.  The recursion argument is
the number of indices still to try. -/
def npcSelectAux (hand : List Card) (top : Card) : Nat → Option Nat
  | 0 => none
  | i + 1 =>
    if checkCard (hand.getD i defaultCard) top then some i else npcSelectAux hand top i

/-- Index of the card the NPC policy plays: the largest index whose card is
legal against `top` (hands are stored newest-first, so this is the oldest
legal card). -/
def npcSelect (hand : List Card) (top : Card) : Option Nat :=
  npcSelectAux hand top hand.length

/-- The NPC branch of `playCard` (uno.js lines 1087-1127).  `roll` models
`Math.random() < probCallUno` for the catch-the-previous-player check; when
that branch fires the source calls `callUno` and re-schedules `playCard`,
so the step performed now is exactly the `callUno`.  The probabilistic
scheduling of the NPC's own future `callUno` (lines 1120-1126) arms a
timer and mutates nothing; the later call is a separate `callUno` event. -/
def npcPlay (g : Game) (p : Player) (top : Card) (ch : Choices) (roll : Bool) : Game × Bool :=
  let prevOk :=
    match playerAt g g.previousTurn with
    | some q => decide (g.previousTurn > -1) && !q.calledUno && (q.hand.length == 1)
    | none => false
  if prevOk && roll then (callUno g p.id ch.drawPicks, false)
  else
    match npcSelect p.hand top with
    | none => (drawAndSkip g 1 ch.drawPicks ch.nextStart, false)
    | some selected =>
      let card := p.hand.getD selected defaultCard
      let color : Option Nat :=
        if card.face &&& CardFace.WILD_EFFECT != 0 then
          let handColors := collectColors p.hand
          some (if handColors.length = 0 then ch.wildColor % 4 + 1
                else handColors.getD (ch.colorPick % handColors.length) 0)
        else none
      let g2 := { g with
        players := modifyIdx g.players g.turn.toNat (fun q =>
          { q with hand := q.hand.eraseIdx selected }) }
      finishPlay g2 card color (p.hand.length - 1) ch

/-- The human branch of `playCard` (uno.js lines 1128-1167), starting from
the already-parsed card (`parseToCard` result); `none` models empty or
unparseable text, which is rejected with no state change. -/
def humanPlay (g : Game) (p : Player) (top : Card) (parsed : Card) (ch : Choices) :
    Game × Bool :=
  if parsed.face &&& CardFace.WILD_EFFECT != 0 && parsed.color == Color.NONE then (g, false)
  else
    let color : Option Nat :=
      if parsed.face &&& CardFace.WILD_EFFECT != 0 then some parsed.color else none
    if !(humanPlayAccepts parsed top) then (g, false)
    else
      match findIdxO (fun el =>
          parsed.face == el.face &&
            (parsed.face &&& CardFace.WILD_EFFECT != 0 || parsed.color == el.color)) p.hand with
      | none => (g, false)
      | some selected =>
        let g2 := { g with
          players := modifyIdx g.players g.turn.toNat (fun q =>
            { q with hand := q.hand.eraseIdx selected }) }
        finishPlay g2 (p.hand.getD selected defaultCard) color (p.hand.length - 1) ch

/-- Model of `playCard(text)` (uno.js lines 1072-1227).  The boolean result
is the source's return value: `true` when the game ended with this play.
When `turn ≥ 0` but `topCard` is `null` or `turn` does not index a player
the source would throw; the model rejects the play unchanged (the game
loop never produces that case). -/
def playCard (g : Game) (text : Option Card) (ch : Choices) (roll : Bool) : Game × Bool :=
  if g.turn = -1 then firstPlay g ch
  else
    match playerAt g g.turn, g.topCard with
    | some p, some top =>
      if p.npc then npcPlay g p top ch roll
      else
        match text with
        | some parsed => humanPlay g p top parsed ch
        | none => (g, false)
    | _, _ => (g, false)

/-- The dealing loop of `startGame` (uno.js lines 815-818): for each player
in turn order, reset their hand and deal 7 cards.  `deals` supplies the
random splice indices for each player.  `i` is the loop variable `turn`
and `n` the number of remaining iterations; the loop runs exactly
`players.length` times since the body preserves the player count. -/
def dealFrom (deals : List (List Nat)) : Game → Nat → Nat → Game
  | g, _, 0 => g
  | g, i, n + 1 =>
    let g2 := { g with
      turn := (i : Int),
      players := modifyIdx g.players i (fun p => { p with hand := [] }) }
    dealFrom deals (drawCards g2 7 (deals.getD i [])) (i + 1) n

def dealAll (g : Game) (deals : List (List Nat)) : Game :=
  dealFrom deals g 0 g.players.length

/-- Model of `startGame()` (uno.js lines 808-906): deal 7 cards to every
player, mark the game started, and play the game's first card. -/
def startGame (g : Game) (deals : List (List Nat)) (ch : Choices) : Game × Bool :=
  let g1 := dealAll g deals
  let g2 := { g1 with turn := -1, started := true }
  playCard g2 none ch false

/-- Model of `removePlayer(p)` (uno.js lines 1422-1436).  The source first
normalizes a member object to its id (`p = p.id`); the subsequent creator
check reads `p.id` on that primitive id, which is `undefined` and never
equal to `maker.id`, so the check never fires and is (faithfully) absent
from the model. -/
def removePlayer (g : Game) (pid : Nat) (start : Nat) : Game :=
  if g.players.length = 0 then g
  else
    match findIdxO (fun pl => pl.id == pid) g.players with
    | none => g
    | some index =>
      let hand := (g.players.getD index defaultPlayer).hand
      let g1 := { g with
        discarded := g.discarded ++ hand,
        players := g.players.eraseIdx index }
      if g1.turn = (index : Int) then nextTurn g1 start else g1

/-! ## Reachability and the card count -/

def handSum (ps : List Player) : Nat := (ps.map (fun p => p.hand.length)).sum

/-- Total number of card instances in circulation: all hands, the pool, and
the top card. -/
def totalCards (g : Game) : Nat :=
  handSum g.players + g.discarded.length +
    (match g.topCard with | some _ => 1 | none => 0)

/-- A freshly created game (uno.js line 478): every card in the pool, no
top card, no turn yet. -/
def initGame (ps : List Player) (mk : Nat) : Game :=
  { players := ps, discarded := getHand, topCard := none, turn := -1,
    previousTurn := -1, direction := 1, started := false, makerId := mk }

/-- Reachable game states: a fresh game (players join with empty hands)
closed under every card-moving operation of the engine.  The `start` step
carries the hypothesis that every hand is empty: the `uno start` command is
only accepted by the lobby collector, which is armed at game creation and
re-armed after `endGame` — in both situations every hand is empty. -/
inductive Reachable : Game → Prop where
  | init (ps : List Player) (mk : Nat) (h : ∀ p ∈ ps, p.hand = []) :
      Reachable (initGame ps mk)
  | start {g} (deals : List (List Nat)) (ch : Choices)
      (hl : ∀ p ∈ g.players, p.hand = []) :
      Reachable g → Reachable (startGame g deals ch).1
  | play {g} (text : Option Card) (ch : Choices) (roll : Bool) :
      Reachable g → Reachable (playCard g text ch roll).1
  | draw {g} (num : Nat) (picks : List Nat) :
      Reachable g → Reachable (drawCards g num picks)
  | drawSkip {g} (num : Nat) (picks : List Nat) (start : Nat) :
      Reachable g → Reachable (drawAndSkip g num picks start)
  | call {g} (caller : Nat) (picks : List Nat) :
      Reachable g → Reachable (callUno g caller picks)
  | remove {g} (pid : Nat) (start : Nat) :
      Reachable g → Reachable (removePlayer g pid start)
  | endg {g} : Reachable g → Reachable (endGame g)

/-! ## Basic lemmas about the list helpers -/

@[simp]
theorem modifyIdx_nil {α : Type} (i : Nat) (f : α → α) : modifyIdx [] i f = [] := rfl

@[simp]
theorem modifyIdx_cons_zero {α : Type} (x : α) (xs : List α) (f : α → α) :
    modifyIdx (x :: xs) 0 f = f x :: xs := rfl

@[simp]
theorem modifyIdx_cons_succ {α : Type} (x : α) (xs : List α) (n : Nat) (f : α → α) :
    modifyIdx (x :: xs) (n + 1) f = x :: modifyIdx xs n f := rfl

@[simp]
theorem length_modifyIdx {α : Type} (l : List α) (i : Nat) (f : α → α) :
    (modifyIdx l i f).length = l.length := by
  induction l generalizing i with
  | nil => rfl
  | cons x xs ih =>
    cases i with
    | zero => rfl
    | succ n => simp [ih]

theorem modifyIdx_of_ge {α : Type} (l : List α) (i : Nat) (f : α → α)
    (h : l.length ≤ i) : modifyIdx l i f = l := by
  induction l generalizing i with
  | nil => rfl
  | cons x xs ih =>
    cases i with
    | zero => simp at h
    | succ n =>
      simp only [modifyIdx_cons_succ, List.cons.injEq, true_and]
      exact ih n (by simpa using h)

theorem get?_modifyIdx_self {α : Type} (l : List α) (i : Nat) (f : α → α) :
    (modifyIdx l i f).get? i = (l.get? i).map f := by
  induction l generalizing i with
  | nil => rfl
  | cons x xs ih =>
    cases i with
    | zero => rfl
    | succ n => simpa using ih n

theorem get?_modifyIdx_ne {α : Type} (l : List α) (i j : Nat) (f : α → α)
    (h : i ≠ j) : (modifyIdx l i f).get? j = l.get? j := by
  induction l generalizing i j with
  | nil => rfl
  | cons x xs ih =>
    cases i with
    | zero =>
      cases j with
      | zero => exact absurd rfl h
      | succ m => rfl
    | succ n =>
      cases j with
      | zero => rfl
      | succ m => simpa using ih n m (by omega)

@[simp]
theorem handSum_nil : handSum [] = 0 := rfl

@[simp]
theorem handSum_cons (p : Player) (ps : List Player) :
    handSum (p :: ps) = p.hand.length + handSum ps := by
  simp [handSum]

theorem handSum_modifyIdx (ps : List Player) (i : Nat) (f : Player → Player)
    (h : i < ps.length) :
    handSum (modifyIdx ps i f) + (ps.getD i defaultPlayer).hand.length
      = handSum ps + (f (ps.getD i defaultPlayer)).hand.length := by
  induction ps generalizing i with
  | nil => simp at h
  | cons x xs ih =>
    cases i with
    | zero => simp; omega
    | succ n =>
      have := ih n (by simpa using h)
      simp only [modifyIdx_cons_succ, handSum_cons, List.getD_cons_succ]
      omega

theorem handSum_modifyIdx_congr (ps : List Player) (i : Nat) (f : Player → Player)
    (hf : ∀ p, (f p).hand = p.hand) :
    handSum (modifyIdx ps i f) = handSum ps := by
  induction ps generalizing i with
  | nil => rfl
  | cons x xs ih =>
    cases i with
    | zero => simp [hf]
    | succ n => simp [ih]

theorem handSum_eraseIdx (ps : List Player) (i : Nat) (h : i < ps.length) :
    handSum (ps.eraseIdx i) + (ps.getD i defaultPlayer).hand.length = handSum ps := by
  induction ps generalizing i with
  | nil => simp at h
  | cons x xs ih =>
    cases i with
    | zero => simp [List.eraseIdx]; omega
    | succ n =>
      have := ih n (by simpa using h)
      simp only [List.eraseIdx, handSum_cons, List.getD_cons_succ]
      omega

theorem length_eraseIdx_lt {α : Type} (l : List α) (i : Nat) (h : i < l.length) :
    (l.eraseIdx i).length + 1 = l.length := by
  induction l generalizing i with
  | nil => simp at h
  | cons x xs ih =>
    cases i with
    | zero => simp [List.eraseIdx]
    | succ n =>
      have := ih n (by simpa using h)
      simp only [List.eraseIdx, List.length_cons]
      omega

theorem mem_of_mem_eraseIdx {α : Type} {l : List α} {i : Nat} {a : α}
    (h : a ∈ l.eraseIdx i) : a ∈ l := by
  induction l generalizing i with
  | nil => simp [List.eraseIdx] at h
  | cons x xs ih =>
    cases i with
    | zero =>
      simp only [List.eraseIdx] at h
      exact List.mem_cons_of_mem _ h
    | succ n =>
      simp only [List.eraseIdx, List.mem_cons] at h ⊢
      rcases h with rfl | h
      · exact Or.inl rfl
      · exact Or.inr (ih h)

theorem getD_eq_of_get? {α : Type} {l : List α} {i : Nat} {a : α} (d : α)
    (h : l.get? i = some a) : l.getD i d = a := by
  induction l generalizing i with
  | nil => simp at h
  | cons x xs ih =>
    cases i with
    | zero => simp_all
    | succ n => simpa using ih (by simpa using h)

@[simp]
theorem length_insertSorted (c : Card) (l : List Card) :
    (insertSorted c l).length = l.length + 1 := by
  induction l with
  | nil => rfl
  | cons x xs ih =>
    unfold insertSorted
    split <;> simp [ih]

@[simp]
theorem length_sortHand (l : List Card) : (sortHand l).length = l.length := by
  induction l with
  | nil => rfl
  | cons x xs ih => simp [sortHand, ih]

theorem mem_insertSorted {a c : Card} {l : List Card} :
    a ∈ insertSorted c l ↔ a = c ∨ a ∈ l := by
  induction l with
  | nil => simp [insertSorted]
  | cons x xs ih =>
    unfold insertSorted
    split
    · simp
    · simp only [List.mem_cons, ih]
      tauto

theorem mem_sortHand {a : Card} {l : List Card} : a ∈ sortHand l ↔ a ∈ l := by
  induction l with
  | nil => simp [sortHand]
  | cons x xs ih =>
    simp only [sortHand, mem_insertSorted, ih, List.mem_cons]

theorem findIdxO_some {α : Type} (p : α → Bool) (l : List α) (i : Nat) (d : α)
    (h : findIdxO p l = some i) : i < l.length ∧ p (l.getD i d) = true := by
  induction l generalizing i with
  | nil => simp [findIdxO] at h
  | cons x xs ih =>
    unfold findIdxO at h
    by_cases hx : p x
    · simp [hx] at h
      subst h
      simpa using hx
    · simp only [hx, if_false] at h
      rcases hmap : findIdxO p xs with _ | j
      · rw [hmap] at h; simp at h
      · rw [hmap] at h
        simp only [Option.map_some'] at h
        obtain rfl : j + 1 = i := Option.some.inj h
        have := ih j hmap
        simpa using this

/-! ## Draw-loop lemmas -/

theorem drawLoop_lengths (pool : List Card) (n : Nat) (picks : List Nat) :
    (drawLoop pool n picks).1.length = min n pool.length ∧
      (drawLoop pool n picks).2.length = pool.length - min n pool.length := by
  induction n generalizing pool picks with
  | zero => simp [drawLoop]
  | succ m ih =>
    unfold drawLoop
    by_cases hp : pool.length = 0
    · simp [hp]
    · have hpos : 0 < pool.length := Nat.pos_of_ne_zero hp
      have hi : picks.headD 0 % pool.length < pool.length := Nat.mod_lt _ hpos
      have hlen := length_eraseIdx_lt pool (picks.headD 0 % pool.length) hi
      have hrec := ih (pool.eraseIdx (picks.headD 0 % pool.length)) picks.tail
      simp only [hp, if_false]
      constructor
      · simp only [List.length_cons]
        omega
      · omega

theorem drawLoop_wild (pool : List Card) (n : Nat) (picks : List Nat) (c : Card)
    (hc : c ∈ (drawLoop pool n picks).1)
    (hw : c.face &&& CardFace.WILD_EFFECT ≠ 0) : c.color = Color.NONE := by
  induction n generalizing pool picks with
  | zero => simp [drawLoop] at hc
  | succ m ih =>
    unfold drawLoop at hc
    by_cases hp : pool.length = 0
    · simp [hp] at hc
    · simp only [hp, if_false, List.mem_cons] at hc
      rcases hc with rfl | hc
      · set s := pool.getD (picks.headD 0 % pool.length) defaultCard with hs
        by_cases hwild : s.face &&& CardFace.WILD_EFFECT != 0
        · simp [hwild]
        · simp only [hwild, if_false] at hw ⊢
          simp at hwild
          exact absurd hwild hw
      · exact ih _ _ hc

/-! ## NPC selection lemmas -/

theorem npcSelectAux_none (hand : List Card) (top : Card) (n : Nat)
    (h : npcSelectAux hand top n = none) :
    ∀ j, j < n → checkCard (hand.getD j defaultCard) top = false := by
  induction n with
  | zero => intro j hj; omega
  | succ m ih =>
    intro j hj
    unfold npcSelectAux at h
    split at h
    next hm => simp at h
    next hm =>
      rcases Nat.lt_succ_iff_lt_or_eq.mp hj with hj' | rfl
      · exact ih h j hj'
      · simpa using hm

theorem npcSelectAux_some (hand : List Card) (top : Card) (n i : Nat)
    (h : npcSelectAux hand top n = some i) :
    i < n ∧ checkCard (hand.getD i defaultCard) top = true ∧
      ∀ j, i < j → j < n → checkCard (hand.getD j defaultCard) top = false := by
  induction n with
  | zero => simp [npcSelectAux] at h
  | succ m ih =>
    unfold npcSelectAux at h
    split at h
    next hm =>
      obtain rfl : m = i := Option.some.inj h
      exact ⟨Nat.lt_succ_self _, by simpa using hm, fun j h1 h2 => by omega⟩
    next hm =>
      obtain ⟨h1, h2, h3⟩ := ih h
      refine ⟨by omega, h2, fun j hj1 hj2 => ?_⟩
      rcases Nat.lt_succ_iff_lt_or_eq.mp hj2 with hj' | rfl
      · exact h3 j hj1 hj'
      · simpa using hm

/-! ## Conservation lemmas: every operation preserves the card count -/

@[simp]
theorem totalCards_nextTurn (g : Game) (s : Nat) :
    totalCards (nextTurn g s) = totalCards g := rfl

theorem totalCards_drawCards (g : Game) (num : Nat) (picks : List Nat) :
    totalCards (drawCards g num picks) = totalCards g := by
  unfold drawCards
  split
  case isTrue h =>
    obtain ⟨h0, h1⟩ := h
    obtain ⟨hd, hp⟩ := drawLoop_lengths g.discarded num picks
    have hm := handSum_modifyIdx g.players g.turn.toNat
      (fun p => { p with
        hand := if p.npc then (drawLoop g.discarded num picks).1 ++ p.hand
                else sortHand ((drawLoop g.discarded num picks).1 ++ p.hand),
        calledUno := false }) h1
    set old := g.players.getD g.turn.toNat defaultPlayer with hold
    have hnew : (if old.npc then (drawLoop g.discarded num picks).1 ++ old.hand
        else sortHand ((drawLoop g.discarded num picks).1 ++ old.hand)).length
        = (drawLoop g.discarded num picks).1.length + old.hand.length := by
      split <;> simp
    simp only [totalCards] at *
    omega
  case isFalse => rfl

theorem totalCards_drawAndSkip (g : Game) (num : Nat) (picks : List Nat) (s : Nat) :
    totalCards (drawAndSkip g num picks s) = totalCards g := by
  unfold drawAndSkip
  rw [totalCards_nextTurn, totalCards_drawCards]

theorem totalCards_turn (g : Game) (t : Int) :
    totalCards { g with turn := t } = totalCards g := rfl

theorem totalCards_set_called (g : Game) (i : Nat) :
    totalCards { g with
      players := modifyIdx g.players i (fun q => { q with calledUno := true }) }
      = totalCards g := by
  simp only [totalCards]
  rw [handSum_modifyIdx_congr]
  intro p
  rfl

theorem totalCards_callUnoCurrent (g : Game) (caller : Nat) :
    totalCards (callUnoCurrent g caller) = totalCards g := by
  unfold callUnoCurrent
  rcases playerAt g g.turn with _ | p
  · rfl
  · dsimp only
    split
    · exact totalCards_set_called g _
    · rfl

theorem totalCards_callUnoPrevious (g : Game) (caller : Nat) :
    totalCards (callUnoPrevious g caller) = totalCards g := by
  unfold callUnoPrevious
  rcases playerAt g g.previousTurn with _ | p
  · rfl
  · dsimp only
    split
    · exact totalCards_set_called g _
    · rfl

theorem totalCards_callUnoPenalty (g : Game) (picks : List Nat) :
    totalCards (callUnoPenalty g picks) = totalCards g := by
  unfold callUnoPenalty
  rcases playerAt g g.previousTurn with _ | p
  · rfl
  · dsimp only
    split
    · rw [totalCards_turn, totalCards_drawCards, totalCards_turn]
    · rfl

theorem totalCards_callUno (g : Game) (caller : Nat) (picks : List Nat) :
    totalCards (callUno g caller picks) = totalCards g := by
  simp only [callUno]
  split
  · rw [totalCards_callUnoPenalty, totalCards_callUnoPrevious, totalCards_callUnoCurrent]
  · rw [totalCards_callUnoCurrent]

theorem handSum_clear (ps : List Player) :
    handSum (ps.map (fun p => { p with hand := [] })) = 0 := by
  induction ps with
  | nil => rfl
  | cons x xs ih => simp [ih]

theorem length_flatten_hands (ps : List Player) :
    (ps.map Player.hand).flatten.length = handSum ps := by
  induction ps with
  | nil => rfl
  | cons x xs ih => simp [ih]

theorem totalCards_endGame (g : Game) : totalCards (endGame g) = totalCards g := by
  simp only [totalCards, endGame, handSum_clear, List.length_append, length_flatten_hands]
  omega

theorem totalCards_direction (g : Game) (d : Int) :
    totalCards { g with direction := d } = totalCards g := rfl

theorem totalCards_ite_nextTurn (c : Prop) [Decidable c] (x : Game) (s : Nat) :
    totalCards (if c then nextTurn x s else x) = totalCards x := by
  split <;> rfl

theorem totalCards_ite_drawCards (c : Prop) [Decidable c] (x : Game) (n : Nat)
    (picks : List Nat) :
    totalCards (if c then drawCards x n picks else x) = totalCards x := by
  split
  · rw [totalCards_drawCards]
  · rfl

theorem totalCards_ite_direction (c : Prop) [Decidable c] (x : Game) (d : Int) :
    totalCards (if c then { x with direction := d } else x) = totalCards x := by
  split <;> rfl

theorem totalCards_ite_endGame (c : Prop) [Decidable c] (x : Game) :
    totalCards (if c then endGame x else x) = totalCards x := by
  split
  · rw [totalCards_endGame]
  · rfl

theorem totalCards_removePlayer (g : Game) (pid : Nat) (s : Nat) :
    totalCards (removePlayer g pid s) = totalCards g := by
  rw [removePlayer]
  split
  · rfl
  · split
    · rfl
    · next index hidx =>
      obtain ⟨hlt, _⟩ := findIdxO_some _ _ _ defaultPlayer hidx
      have herase := handSum_eraseIdx g.players index hlt
      simp only [totalCards_ite_nextTurn]
      simp only [totalCards, List.length_append]
      omega

theorem totalCards_finishPlay (g : Game) (card : Card) (color : Option Nat)
    (nhl : Nat) (ch : Choices) :
    totalCards (finishPlay g card color nhl ch).1 = totalCards g + 1 := by
  rw [finishPlay.eq_def]
  rcases htc : g.topCard with _ | tc <;> simp only [htc] <;> split <;>
    simp only [totalCards_ite_nextTurn, totalCards_ite_drawCards,
      totalCards_ite_direction, totalCards_ite_endGame, totalCards_nextTurn] <;>
    simp only [totalCards, List.length_append, List.length_singleton, htc,
      apply_ite Game.players, apply_ite Game.discarded, apply_ite Game.topCard,
      ite_self] <;>
  omega

theorem totalCards_firstPlay (g : Game) (ch : Choices) :
    totalCards (firstPlay g ch).1 = totalCards g := by
  rw [firstPlay]
  split
  · rfl
  · next hne =>
    have hpos : 0 < g.discarded.length := Nat.pos_of_ne_zero hne
    have hsel : ch.firstIdx % g.discarded.length < g.discarded.length := Nat.mod_lt _ hpos
    have hlen := length_eraseIdx_lt g.discarded (ch.firstIdx % g.discarded.length) hsel
    simp only [totalCards_finishPlay]
    simp only [totalCards]
    omega

theorem playerAt_some {g : Game} {i : Int} {p : Player} (h : playerAt g i = some p) :
    0 ≤ i ∧ i.toNat < g.players.length ∧ g.players.getD i.toNat defaultPlayer = p := by
  unfold playerAt at h
  split at h
  · cases h
  · next hneg =>
    have h0 : 0 ≤ i := by omega
    have hlt : i.toNat < g.players.length := by
      by_contra hge
      rw [List.get?_eq_none.mpr (by omega)] at h
      cases h
    exact ⟨h0, hlt, getD_eq_of_get? _ h⟩

theorem totalCards_npcPlay (g : Game) (p : Player) (top : Card) (ch : Choices)
    (roll : Bool) (hp : playerAt g g.turn = some p) :
    totalCards (npcPlay g p top ch roll).1 = totalCards g := by
  obtain ⟨h0, hlt, hgd⟩ := playerAt_some hp
  rw [npcPlay]
  split
  · exact totalCards_callUno g p.id ch.drawPicks
  · split
    · exact totalCards_drawAndSkip g 1 ch.drawPicks ch.nextStart
    · next selected hsel =>
      obtain ⟨hslt, -, -⟩ := npcSelectAux_some _ _ _ _ hsel
      have hm := handSum_modifyIdx g.players g.turn.toNat
        (fun q => { q with hand := q.hand.eraseIdx selected }) hlt
      have hel := length_eraseIdx_lt p.hand selected hslt
      simp only [totalCards_finishPlay]
      simp only [totalCards]
      rw [hgd] at hm
      dsimp only at hm
      omega

theorem totalCards_humanPlay (g : Game) (p : Player) (top parsed : Card)
    (ch : Choices) (hp : playerAt g g.turn = some p) :
    totalCards (humanPlay g p top parsed ch).1 = totalCards g := by
  obtain ⟨h0, hlt, hgd⟩ := playerAt_some hp
  rw [humanPlay]
  dsimp only
  split
  · rfl
  · split
    · rfl
    · split
      · rfl
      · next selected hfind =>
        obtain ⟨hslt, -⟩ := findIdxO_some _ _ _ defaultCard hfind
        have hm := handSum_modifyIdx g.players g.turn.toNat
          (fun q => { q with hand := q.hand.eraseIdx selected }) hlt
        have hel := length_eraseIdx_lt p.hand selected hslt
        simp only [totalCards_finishPlay]
        simp only [totalCards]
        rw [hgd] at hm
        dsimp only at hm
        omega

theorem totalCards_playCard (g : Game) (text : Option Card) (ch : Choices)
    (roll : Bool) : totalCards (playCard g text ch roll).1 = totalCards g := by
  rw [playCard]
  split
  · exact totalCards_firstPlay g ch
  · split
    · next p top hp htop =>
      split
      · exact totalCards_npcPlay g p top ch roll hp
      · split
        · next parsed => exact totalCards_humanPlay g p top parsed ch hp
        · rfl
    · rfl

theorem getD_modifyIdx_ne {α : Type} (l : List α) (i j : Nat) (f : α → α) (d : α)
    (h : i ≠ j) : (modifyIdx l i f).getD j d = l.getD j d := by
  induction l generalizing i j with
  | nil => rfl
  | cons x xs ih =>
    cases i with
    | zero =>
      cases j with
      | zero => exact absurd rfl h
      | succ m => rfl
    | succ n =>
      cases j with
      | zero => rfl
      | succ m => simpa using ih n m (by omega)

theorem drawCards_turn (g : Game) (num : Nat) (picks : List Nat) :
    (drawCards g num picks).turn = g.turn := by
  rw [drawCards]
  split <;> rfl

theorem drawCards_getD_ne (g : Game) (num : Nat) (picks : List Nat) (j : Nat)
    (hj : j ≠ g.turn.toNat) :
    (drawCards g num picks).players.getD j defaultPlayer
      = g.players.getD j defaultPlayer := by
  rw [drawCards]
  split
  · dsimp only
    exact getD_modifyIdx_ne _ _ _ _ _ (Ne.symm hj)
  · rfl

theorem getD_mem_of_lt {α : Type} (l : List α) (j : Nat) (d : α) (h : j < l.length) :
    l.getD j d ∈ l := by
  induction l generalizing j with
  | nil => simp at h
  | cons x xs ih =>
    cases j with
    | zero => simp
    | succ m =>
      simp only [List.getD_cons_succ]
      exact List.mem_cons_of_mem _ (ih m (by simpa using h))

theorem getD_eq_default_of_ge {α : Type} (l : List α) (j : Nat) (d : α)
    (h : l.length ≤ j) : l.getD j d = d := by
  induction l generalizing j with
  | nil => simp [List.getD]
  | cons x xs ih =>
    cases j with
    | zero => simp at h
    | succ m =>
      simp only [List.getD_cons_succ]
      exact ih m (by simpa using h)

theorem totalCards_dealFrom (deals : List (List Nat)) (g : Game) (i n : Nat)
    (h : ∀ j, i ≤ j → (g.players.getD j defaultPlayer).hand = []) :
    totalCards (dealFrom deals g i n) = totalCards g := by
  induction n generalizing g i with
  | zero => rfl
  | succ m ih =>
    rw [dealFrom]
    set g2 : Game := { g with
      turn := (i : Int),
      players := modifyIdx g.players i (fun p => { p with hand := [] }) } with hg2
    have htot2 : totalCards g2 = totalCards g := by
      by_cases hi : i < g.players.length
      · have hm := handSum_modifyIdx g.players i (fun p => { p with hand := [] }) hi
        have hempty := h i (le_refl i)
        dsimp only at hm
        rw [hempty] at hm
        simp only [List.length_nil] at hm
        simp only [totalCards, hg2]
        omega
      · have hge : g.players.length ≤ i := by omega
        simp only [totalCards, hg2]
        rw [modifyIdx_of_ge _ _ _ hge]
    have hturn2 : g2.turn.toNat = i := by simp [hg2]
    have hrec : ∀ j, i + 1 ≤ j →
        (((drawCards g2 7 (deals.getD i [])).players.getD j defaultPlayer).hand = []) := by
      intro j hj
      rw [drawCards_getD_ne _ _ _ _ (by omega)]
      show ((modifyIdx g.players i (fun p => { p with hand := [] })).getD j defaultPlayer).hand = []
      rw [getD_modifyIdx_ne _ _ _ _ _ (by omega)]
      exact h j (by omega)
    rw [ih _ _ hrec, totalCards_drawCards, htot2]

theorem handSum_eq_zero {ps : List Player} (h : ∀ p ∈ ps, p.hand = []) :
    handSum ps = 0 := by
  induction ps with
  | nil => rfl
  | cons x xs ih =>
    simp only [handSum_cons]
    rw [h x (List.mem_cons_self x xs), ih (fun p hp => h p (List.mem_cons_of_mem _ hp))]
    rfl

theorem getHand_length : getHand.length = 108 := rfl

theorem totalCards_startGame (g : Game) (deals : List (List Nat)) (ch : Choices)
    (h : ∀ p ∈ g.players, p.hand = []) :
    totalCards (startGame g deals ch).1 = totalCards g := by
  rw [startGame]
  rw [totalCards_playCard]
  have hstep : totalCards { dealAll g deals with turn := -1, started := true }
      = totalCards (dealAll g deals) := rfl
  rw [hstep, dealAll]
  apply totalCards_dealFrom
  intro j _
  by_cases hj : j < g.players.length
  · exact h _ (getD_mem_of_lt _ _ _ hj)
  · rw [getD_eq_default_of_ge _ _ _ (by omega)]
    rfl

/-- C1: Conservation invariant.  In every reachable game state the number of
card instances in all players' hands, plus the circulating pool, plus the
top card (1 if present, 0 if `null`) equals 108; each step of the proof is
a preservation lemma for one operation (`playCard`, `drawCards`,
`drawAndSkip`, the `callUno` penalty, `removePlayer`, `endGame`, and
`startGame`). -/
theorem conservation_reachable (g : Game) (h : Reachable g) : totalCards g = 108 := by
  induction h with
  | init ps mk hps =>
    simp only [totalCards, initGame, handSum_eq_zero hps, getHand_length]
  | start deals ch hl _ ih => rw [totalCards_startGame _ _ _ hl, ih]
  | play text ch roll _ ih => rw [totalCards_playCard, ih]
  | draw num picks _ ih => rw [totalCards_drawCards, ih]
  | drawSkip num picks s _ ih => rw [totalCards_drawAndSkip, ih]
  | call caller picks _ ih => rw [totalCards_callUno, ih]
  | remove pid s _ ih => rw [totalCards_removePlayer, ih]
  | endg _ ih => rw [totalCards_endGame, ih]

/-- Witness for C1: the conservation theorem applied to a concrete freshly
created two-player game. -/
theorem conservation_reachable_witness :
    totalCards (initGame [⟨10, false, false, []⟩, ⟨20, true, false, []⟩] 10) = 108 :=
  conservation_reachable _
    (Reachable.init [⟨10, false, false, []⟩, ⟨20, true, false, []⟩] 10 (by
      decide))

/-! ## C9: deck composition -/

/-- Number of cards in the deck built by `getHand()` with the given face and
color. -/
def countCard (face color : Nat) : Nat :=
  getHand.countP (fun cd => cd.face == face && cd.color == color)

/-- C9: Deck composition.  `getHand()` returns exactly 108 cards and its
multiset grouped by (face, color) is the canonical standard deck: for each
of the 4 colors one 0, two each of 1 through 9, two Skip, two Reverse, two
DrawTwo; plus 4 colorless Wild and 4 colorless WildDrawFour (the listed
counts sum to 108, so no other card occurs). -/
theorem deck_composition :
    getHand.length = 108 ∧
      (∀ c ∈ [Color.RED, Color.BLUE, Color.GREEN, Color.YELLOW],
        countCard CardFace.ZERO c = 1 ∧
          (∀ n ∈ [CardFace.ONE, CardFace.TWO, CardFace.THREE, CardFace.FOUR,
              CardFace.FIVE, CardFace.SIX, CardFace.SEVEN, CardFace.EIGHT,
              CardFace.NINE], countCard n c = 2) ∧
          countCard CardFace.SKIP c = 2 ∧ countCard CardFace.REVERSE c = 2 ∧
          countCard CardFace.DRAW_TWO c = 2) ∧
      countCard CardFace.WILD Color.NONE = 4 ∧
      countCard CardFace.DRAW_FOUR Color.NONE = 4 := by
  decide

/-! ## C2: legality law -/

/-- On the fifteen real card faces, equality of the full face value agrees
with equality of the `BASE_MASK` part (each real face has a distinct base
nibble pair). -/
theorem faceEq_iff_baseEq :
    ∀ f ∈ canonicalFaces, ∀ t ∈ canonicalFaces,
      (f == t) = ((f &&& CardFace.BASE_MASK) == (t &&& CardFace.BASE_MASK)) := by
  decide

/-- C2: Legality law.  For cards whose faces are real card faces (as all
parsed cards and all top cards are), `checkCard(c, t)` is true exactly when
`c` has the wild effect bit, or the `BASE_MASK` parts of the faces agree,
or the colors agree; and the human-play validation applied to a parsed
card in `playCard` accepts under exactly the `checkCard` condition. -/
theorem checkCard_law (c t : Card)
    (hc : c.face ∈ canonicalFaces) (ht : t.face ∈ canonicalFaces) :
    (checkCard c t = true ↔
      (c.face &&& CardFace.WILD_EFFECT ≠ 0 ∨
        c.face &&& CardFace.BASE_MASK = t.face &&& CardFace.BASE_MASK ∨
        c.color = t.color)) ∧
      humanPlayAccepts c t = checkCard c t := by
  have hfb := faceEq_iff_baseEq c.face hc t.face ht
  constructor
  · unfold checkCard
    by_cases hw : (c.face &&& CardFace.WILD_EFFECT != 0) = true
    · simp [hw]
      left
      simpa using hw
    · simp [hw]
      simp at hw
      simp [hw]
  · unfold humanPlayAccepts checkCard
    rw [hfb]
    by_cases hw : (c.face &&& CardFace.WILD_EFFECT != 0) = true
    · simp [hw]
    · simp [hw]

/-- Witness for C2: the legality law applied to the concrete pair Blue 5
against Red Skip (different base, different color, not wild: rejected). -/
theorem checkCard_law_witness :
    ((Card.mk CardFace.FIVE Color.BLUE).face ∈ canonicalFaces) ∧
      ((Card.mk CardFace.SKIP Color.RED).face ∈ canonicalFaces) ∧
      ((checkCard (Card.mk CardFace.FIVE Color.BLUE) (Card.mk CardFace.SKIP Color.RED) = true ↔
        ((Card.mk CardFace.FIVE Color.BLUE).face &&& CardFace.WILD_EFFECT ≠ 0 ∨
          (Card.mk CardFace.FIVE Color.BLUE).face &&& CardFace.BASE_MASK
            = (Card.mk CardFace.SKIP Color.RED).face &&& CardFace.BASE_MASK ∨
          (Card.mk CardFace.FIVE Color.BLUE).color = (Card.mk CardFace.SKIP Color.RED).color)) ∧
        humanPlayAccepts (Card.mk CardFace.FIVE Color.BLUE) (Card.mk CardFace.SKIP Color.RED)
          = checkCard (Card.mk CardFace.FIVE Color.BLUE) (Card.mk CardFace.SKIP Color.RED)) :=
  ⟨by decide, by decide, checkCard_law _ _ (by decide) (by decide)⟩

/-! ## Per-field lemmas about `drawCards` and the `callUno` blocks -/

theorem get?_eq_some_getD {α : Type} (l : List α) (i : Nat) (d : α)
    (h : i < l.length) : l.get? i = some (l.getD i d) := by
  induction l generalizing i with
  | nil => simp at h
  | cons x xs ih =>
    cases i with
    | zero => rfl
    | succ m => simpa using ih m (by simpa using h)

theorem getD_modifyIdx_self {α : Type} (l : List α) (i : Nat) (f : α → α) (d : α)
    (h : i < l.length) : (modifyIdx l i f).getD i d = f (l.getD i d) := by
  induction l generalizing i with
  | nil => simp at h
  | cons x xs ih =>
    cases i with
    | zero => rfl
    | succ m => simpa using ih m (by simpa using h)

theorem playerAt_eq_getD (g : Game) (i : Int) (h0 : 0 ≤ i)
    (hlt : i.toNat < g.players.length) :
    playerAt g i = some (g.players.getD i.toNat defaultPlayer) := by
  unfold playerAt
  rw [if_neg (by omega)]
  exact get?_eq_some_getD _ _ _ hlt

theorem drawCards_hand_length (g : Game) (num : Nat) (picks : List Nat)
    (h0 : 0 ≤ g.turn) (h1 : g.turn.toNat < g.players.length) :
    ((drawCards g num picks).players.getD g.turn.toNat defaultPlayer).hand.length
      = min num g.discarded.length
        + (g.players.getD g.turn.toNat defaultPlayer).hand.length := by
  rw [drawCards, if_pos ⟨h0, h1⟩]
  dsimp only
  rw [getD_modifyIdx_self _ _ _ _ h1]
  obtain ⟨hd, -⟩ := drawLoop_lengths g.discarded num picks
  dsimp only
  split <;> simp [hd]

theorem drawCards_calledUno (g : Game) (num : Nat) (picks : List Nat)
    (h0 : 0 ≤ g.turn) (h1 : g.turn.toNat < g.players.length) :
    ((drawCards g num picks).players.getD g.turn.toNat defaultPlayer).calledUno
      = false := by
  rw [drawCards, if_pos ⟨h0, h1⟩]
  dsimp only
  rw [getD_modifyIdx_self _ _ _ _ h1]

theorem drawCards_discarded_length (g : Game) (num : Nat) (picks : List Nat)
    (h0 : 0 ≤ g.turn) (h1 : g.turn.toNat < g.players.length) :
    (drawCards g num picks).discarded.length
      = g.discarded.length - min num g.discarded.length := by
  rw [drawCards, if_pos ⟨h0, h1⟩]
  obtain ⟨-, hp⟩ := drawLoop_lengths g.discarded num picks
  exact hp

theorem drawCards_players_length (g : Game) (num : Nat) (picks : List Nat) :
    (drawCards g num picks).players.length = g.players.length := by
  rw [drawCards]
  split
  · dsimp only
    exact length_modifyIdx _ _ _
  · rfl

theorem callUnoCurrent_previousTurn (g : Game) (caller : Nat) :
    (callUnoCurrent g caller).previousTurn = g.previousTurn := by
  unfold callUnoCurrent
  rcases hq : playerAt g g.turn with _ | q
  · rfl
  · dsimp only
    split <;> rfl

theorem callUnoCurrent_turn (g : Game) (caller : Nat) :
    (callUnoCurrent g caller).turn = g.turn := by
  unfold callUnoCurrent
  rcases hq : playerAt g g.turn with _ | q
  · rfl
  · dsimp only
    split <;> rfl

theorem callUnoCurrent_discarded (g : Game) (caller : Nat) :
    (callUnoCurrent g caller).discarded = g.discarded := by
  unfold callUnoCurrent
  rcases hq : playerAt g g.turn with _ | q
  · rfl
  · dsimp only
    split <;> rfl

theorem callUnoCurrent_players_length (g : Game) (caller : Nat) :
    (callUnoCurrent g caller).players.length = g.players.length := by
  unfold callUnoCurrent
  rcases hq : playerAt g g.turn with _ | q
  · rfl
  · dsimp only
    split
    · dsimp only
      exact length_modifyIdx _ _ _
    · rfl

theorem getD_modifyIdx_hand (ps : List Player) (i j : Nat) :
    ((modifyIdx ps i (fun r => { r with calledUno := true })).getD j defaultPlayer).hand
      = (ps.getD j defaultPlayer).hand := by
  by_cases hij : i = j
  · subst hij
    by_cases hi : i < ps.length
    · rw [getD_modifyIdx_self _ _ _ _ hi]
    · rw [modifyIdx_of_ge _ _ _ (by omega)]
  · rw [getD_modifyIdx_ne _ _ _ _ _ hij]

theorem getD_modifyIdx_id (ps : List Player) (i j : Nat) :
    ((modifyIdx ps i (fun r => { r with calledUno := true })).getD j defaultPlayer).id
      = (ps.getD j defaultPlayer).id := by
  by_cases hij : i = j
  · subst hij
    by_cases hi : i < ps.length
    · rw [getD_modifyIdx_self _ _ _ _ hi]
    · rw [modifyIdx_of_ge _ _ _ (by omega)]
  · rw [getD_modifyIdx_ne _ _ _ _ _ hij]

theorem callUnoCurrent_hand (g : Game) (caller : Nat) (j : Nat) :
    ((callUnoCurrent g caller).players.getD j defaultPlayer).hand
      = (g.players.getD j defaultPlayer).hand := by
  unfold callUnoCurrent
  rcases hq : playerAt g g.turn with _ | q
  · rfl
  · dsimp only
    split
    · dsimp only
      exact getD_modifyIdx_hand _ _ _
    · rfl

theorem callUnoCurrent_id (g : Game) (caller : Nat) (j : Nat) :
    ((callUnoCurrent g caller).players.getD j defaultPlayer).id
      = (g.players.getD j defaultPlayer).id := by
  unfold callUnoCurrent
  rcases hq : playerAt g g.turn with _ | q
  · rfl
  · dsimp only
    split
    · dsimp only
      exact getD_modifyIdx_id _ _ _
    · rfl

theorem callUnoCurrent_calledUno_ne_two (g : Game) (caller : Nat) (j : Nat)
    (hj : (g.players.getD j defaultPlayer).hand.length ≠ 2) :
    ((callUnoCurrent g caller).players.getD j defaultPlayer).calledUno
      = (g.players.getD j defaultPlayer).calledUno := by
  unfold callUnoCurrent
  rcases hq : playerAt g g.turn with _ | q
  · rfl
  · obtain ⟨h0, hlt, hgd⟩ := playerAt_some hq
    dsimp only
    split
    · next hcond =>
      by_cases hij : g.turn.toNat = j
      · subst hij
        rw [hgd] at hj
        simp only [Bool.and_eq_true, beq_iff_eq] at hcond
        exact absurd hcond.2 hj
      · dsimp only
        rw [getD_modifyIdx_ne _ _ _ _ _ hij]
    · rfl

theorem callUnoPrevious_turn (g : Game) (caller : Nat) :
    (callUnoPrevious g caller).turn = g.turn := by
  unfold callUnoPrevious
  rcases hq : playerAt g g.previousTurn with _ | q
  · rfl
  · dsimp only
    split <;> rfl

theorem callUnoPrevious_previousTurn (g : Game) (caller : Nat) :
    (callUnoPrevious g caller).previousTurn = g.previousTurn := by
  unfold callUnoPrevious
  rcases hq : playerAt g g.previousTurn with _ | q
  · rfl
  · dsimp only
    split <;> rfl

theorem callUnoPrevious_discarded (g : Game) (caller : Nat) :
    (callUnoPrevious g caller).discarded = g.discarded := by
  unfold callUnoPrevious
  rcases hq : playerAt g g.previousTurn with _ | q
  · rfl
  · dsimp only
    split <;> rfl

theorem callUnoPrevious_players_length (g : Game) (caller : Nat) :
    (callUnoPrevious g caller).players.length = g.players.length := by
  unfold callUnoPrevious
  rcases hq : playerAt g g.previousTurn with _ | q
  · rfl
  · dsimp only
    split
    · dsimp only
      exact length_modifyIdx _ _ _
    · rfl

theorem callUnoPrevious_hand (g : Game) (caller : Nat) (j : Nat) :
    ((callUnoPrevious g caller).players.getD j defaultPlayer).hand
      = (g.players.getD j defaultPlayer).hand := by
  unfold callUnoPrevious
  rcases hq : playerAt g g.previousTurn with _ | q
  · rfl
  · dsimp only
    split
    · dsimp only
      exact getD_modifyIdx_hand _ _ _
    · rfl

theorem callUnoPrevious_no_fire (g : Game) (caller : Nat)
    (h : ∀ q, playerAt g g.previousTurn = some q →
      (q.id == caller && !q.calledUno && q.hand.length == 1) = false) :
    callUnoPrevious g caller = g := by
  unfold callUnoPrevious
  rcases hq : playerAt g g.previousTurn with _ | q
  · rfl
  · dsimp only
    rw [if_neg (by simp [h q hq])]

theorem callUnoPenalty_no_fire (g : Game) (picks : List Nat)
    (h : ∀ q, playerAt g g.previousTurn = some q →
      (!q.calledUno && q.hand.length == 1) = false) :
    callUnoPenalty g picks = g := by
  unfold callUnoPenalty
  rcases hq : playerAt g g.previousTurn with _ | q
  · rfl
  · dsimp only
    rw [if_neg (by simp [h q hq])]

theorem callUnoPenalty_fires (g : Game) (picks : List Nat) (q : Player)
    (hq : playerAt g g.previousTurn = some q)
    (hcond : (!q.calledUno && q.hand.length == 1) = true) :
    callUnoPenalty g picks
      = { drawCards { g with turn := g.previousTurn } 2 picks with turn := g.turn } := by
  unfold callUnoPenalty
  rw [hq]
  dsimp only
  rw [if_pos hcond]

theorem callUnoPenalty_turn (g : Game) (picks : List Nat) :
    (callUnoPenalty g picks).turn = g.turn := by
  unfold callUnoPenalty
  rcases hq : playerAt g g.previousTurn with _ | q
  · rfl
  · dsimp only
    split <;> rfl

theorem drawCards_previousTurn (g : Game) (num : Nat) (picks : List Nat) :
    (drawCards g num picks).previousTurn = g.previousTurn := by
  rw [drawCards]
  split <;> rfl

theorem callUnoPenalty_previousTurn (g : Game) (picks : List Nat) :
    (callUnoPenalty g picks).previousTurn = g.previousTurn := by
  unfold callUnoPenalty
  rcases hq : playerAt g g.previousTurn with _ | q
  · rfl
  · dsimp only
    split
    · dsimp only
      exact drawCards_previousTurn _ _ _
    · rfl

theorem callUnoPenalty_players_length (g : Game) (picks : List Nat) :
    (callUnoPenalty g picks).players.length = g.players.length := by
  unfold callUnoPenalty
  rcases hq : playerAt g g.previousTurn with _ | q
  · rfl
  · dsimp only
    split
    · dsimp only
      exact drawCards_players_length _ _ _
    · rfl

theorem callUno_turn (g : Game) (caller : Nat) (picks : List Nat) :
    (callUno g caller picks).turn = g.turn := by
  simp only [callUno]
  split
  · rw [callUnoPenalty_turn, callUnoPrevious_turn, callUnoCurrent_turn]
  · rw [callUnoCurrent_turn]

theorem callUno_previousTurn (g : Game) (caller : Nat) (picks : List Nat) :
    (callUno g caller picks).previousTurn = g.previousTurn := by
  simp only [callUno]
  split
  · rw [callUnoPenalty_previousTurn, callUnoPrevious_previousTurn,
      callUnoCurrent_previousTurn]
  · rw [callUnoCurrent_previousTurn]

theorem callUno_players_length (g : Game) (caller : Nat) (picks : List Nat) :
    (callUno g caller picks).players.length = g.players.length := by
  simp only [callUno]
  split
  · rw [callUnoPenalty_players_length, callUnoPrevious_players_length,
      callUnoCurrent_players_length]
  · rw [callUnoCurrent_players_length]

theorem callUno_hand_no_penalty (g : Game) (caller : Nat) (picks : List Nat)
    (hne : ∀ q, playerAt g g.previousTurn = some q → (q.hand.length == 1) = false)
    (j : Nat) :
    ((callUno g caller picks).players.getD j defaultPlayer).hand
      = (g.players.getD j defaultPlayer).hand := by
  simp only [callUno]
  split
  · next hgt =>
    set g1 := callUnoCurrent g caller with hg1
    set g2 := callUnoPrevious g1 caller with hg2
    have e1 : g1.previousTurn = g.previousTurn := by
      rw [hg1, callUnoCurrent_previousTurn]
    have e2 : g2.previousTurn = g.previousTurn := by
      rw [hg2, callUnoPrevious_previousTurn, e1]
    have elen : g2.players.length = g.players.length := by
      rw [hg2, callUnoPrevious_players_length, hg1, callUnoCurrent_players_length]
    have hpen : callUnoPenalty g2 picks = g2 := by
      apply callUnoPenalty_no_fire
      intro q hq
      obtain ⟨q0, qlt, qgd⟩ := playerAt_some hq
      have hq_hand : q.hand = (g.players.getD g.previousTurn.toNat defaultPlayer).hand := by
        rw [← qgd, e2]
        rw [hg2, callUnoPrevious_hand, hg1, callUnoCurrent_hand]
      have horig : (g.players.getD g.previousTurn.toNat defaultPlayer).hand.length ≠ 1 := by
        by_cases hb : 0 ≤ g.previousTurn ∧ g.previousTurn.toNat < g.players.length
        · have := hne (g.players.getD g.previousTurn.toNat defaultPlayer)
            (playerAt_eq_getD g _ hb.1 hb.2)
          simpa using this
        · rw [e2] at q0 qlt
          rw [elen] at qlt
          exact absurd ⟨q0, qlt⟩ hb
      have hb1 : ((g.players.getD g.previousTurn.toNat defaultPlayer).hand.length == 1)
          = false := by simpa using horig
      rw [hq_hand, hb1, Bool.and_false]
    rw [hpen, hg2, callUnoPrevious_hand, hg1, callUnoCurrent_hand]
  · rw [callUnoCurrent_hand]

/-! ## C3: call-enforcement law -/

/-- A concrete in-game state: previous participant (index 0, id 5) holds one
card and has not called; current participant is index 1; the pool holds two
cards. -/
def gC3 : Game :=
  { players := [⟨5, false, false, [Card.mk CardFace.ONE Color.RED]⟩,
      ⟨6, false, false, [Card.mk CardFace.TWO Color.RED, Card.mk CardFace.THREE Color.RED]⟩],
    discarded := [Card.mk CardFace.FOUR Color.RED, Card.mk CardFace.FOUR Color.GREEN],
    topCard := some (Card.mk CardFace.FIVE Color.RED), turn := 1, previousTurn := 0,
    direction := 1, started := true, makerId := 5 }

/-- C3 counterexample: in `gC3` every precondition of the claim holds
(previousTurn ≥ 0, the previous participant's hand holds exactly 1 card,
their flag is false, the pool holds 2 cards), yet `callUno` invoked by the
previous participant themself (caller id 5) marks their flag retroactively
before the penalty check and applies no penalty: the hand stays at 1 card
instead of growing by 2, refuting the claim for that caller. -/
theorem callUno_self_call_counterexample :
    gC3.previousTurn = 0 ∧
      (gC3.players.getD 0 defaultPlayer).hand.length = 1 ∧
      (gC3.players.getD 0 defaultPlayer).calledUno = false ∧
      (gC3.players.getD 0 defaultPlayer).id = 5 ∧
      2 ≤ gC3.discarded.length ∧
      ((callUno gC3 5 [0, 0]).players.getD 0 defaultPlayer).hand.length = 1 ∧
      ((callUno gC3 5 [0, 0]).players.getD 0 defaultPlayer).calledUno = true := by
  decide

/-- C3 (amended): whenever `callUno` is invoked in a state where
`previousTurn` indexes a participant whose hand holds exactly 1 card and
whose `calledUno` flag is false, by any caller whose id is NOT the previous
participant's id (a call by the previous participant themself is the
retroactive self-call, which escapes the penalty), the previous
participant's hand grows by exactly 2 cards (given the pool holds at least
2), the turn index is unchanged, and any further `callUno` causes no
further growth of that hand. -/
theorem callUno_penalty_law (g : Game) (caller : Nat) (picks : List Nat) (p : Player)
    (hp : playerAt g g.previousTurn = some p)
    (h1 : p.hand.length = 1) (h2 : p.calledUno = false) (hc : caller ≠ p.id)
    (hpool : 2 ≤ g.discarded.length) :
    ((callUno g caller picks).players.getD g.previousTurn.toNat defaultPlayer).hand.length
        = 3 ∧
      (callUno g caller picks).turn = g.turn ∧
      ∀ (caller2 : Nat) (picks2 : List Nat),
        ((callUno (callUno g caller picks) caller2 picks2).players.getD
            g.previousTurn.toNat defaultPlayer).hand.length = 3 := by
  obtain ⟨hprev0, hprevlt, hgd⟩ := playerAt_some hp
  have hmain : ((callUno g caller picks).players.getD
      g.previousTurn.toNat defaultPlayer).hand.length = 3 := by
    simp only [callUno]
    rw [if_pos (by rw [callUnoCurrent_previousTurn]; omega)]
    set g1 := callUnoCurrent g caller with hg1
    have e1 : g1.previousTurn = g.previousTurn := by
      rw [hg1, callUnoCurrent_previousTurn]
    have elen1 : g1.players.length = g.players.length := by
      rw [hg1, callUnoCurrent_players_length]
    have eh1 : (g1.players.getD g.previousTurn.toNat defaultPlayer).hand = p.hand := by
      rw [hg1, callUnoCurrent_hand, hgd]
    have eid1 : (g1.players.getD g.previousTurn.toNat defaultPlayer).id = p.id := by
      rw [hg1, callUnoCurrent_id, hgd]
    have ec1 : (g1.players.getD g.previousTurn.toNat defaultPlayer).calledUno = false := by
      rw [hg1, callUnoCurrent_calledUno_ne_two, hgd]
      · exact h2
      · rw [hgd, h1]
        omega
    have hg2eq : callUnoPrevious g1 caller = g1 := by
      apply callUnoPrevious_no_fire
      intro q hq
      obtain ⟨q0, qlt, qgd⟩ := playerAt_some hq
      have hqid : q.id = p.id := by
        rw [← qgd, e1, eid1]
      have : (q.id == caller) = false := by
        simp [hqid]
        omega
      rw [this, Bool.false_and, Bool.false_and]
    rw [hg2eq]
    have hq1 : playerAt g1 g1.previousTurn
        = some (g1.players.getD g.previousTurn.toNat defaultPlayer) := by
      rw [e1]
      exact playerAt_eq_getD g1 _ hprev0 (by rw [elen1]; exact hprevlt)
    have hcond : (!(g1.players.getD g.previousTurn.toNat defaultPlayer).calledUno &&
        (g1.players.getD g.previousTurn.toNat defaultPlayer).hand.length == 1) = true := by
      rw [ec1, eh1, h1]
      rfl
    rw [callUnoPenalty_fires g1 picks _ hq1 hcond]
    dsimp only
    have hgd_turn : ({ g1 with turn := g1.previousTurn } : Game).turn.toNat
        = g.previousTurn.toNat := by
      simp [e1]
    have hlen' : ({ g1 with turn := g1.previousTurn } : Game).turn.toNat
        < ({ g1 with turn := g1.previousTurn } : Game).players.length := by
      simp [e1, elen1]
      exact hprevlt
    have := drawCards_hand_length { g1 with turn := g1.previousTurn } 2 picks
      (by simp [e1]; exact hprev0) hlen'
    rw [hgd_turn] at this
    rw [this]
    have hdisc : ({ g1 with turn := g1.previousTurn } : Game).discarded = g.discarded := by
      simp [hg1, callUnoCurrent_discarded]
    rw [hdisc]
    dsimp only
    rw [eh1, h1]
    omega
  refine ⟨hmain, callUno_turn g caller picks, ?_⟩
  intro caller2 picks2
  set gA := callUno g caller picks with hgA
  have eA : gA.previousTurn = g.previousTurn := by
    rw [hgA, callUno_previousTurn]
  have hne : ∀ q, playerAt gA gA.previousTurn = some q → (q.hand.length == 1) = false := by
    intro q hq
    obtain ⟨q0, qlt, qgd⟩ := playerAt_some hq
    have : q.hand.length = 3 := by
      rw [← qgd, eA]
      exact hmain
    rw [this]
    rfl
  rw [callUno_hand_no_penalty gA caller2 picks2 hne]
  exact hmain

/-- Witness for C3 (amended): the law applied to the concrete state `gC3`
with caller id 7 (neither participant): the previous participant's hand
grows to 3, the turn stays at 1, and a second call adds nothing. -/
theorem callUno_penalty_law_witness :
    (playerAt gC3 gC3.previousTurn = some ⟨5, false, false, [Card.mk CardFace.ONE Color.RED]⟩) ∧
      ((callUno gC3 7 [0, 0]).players.getD gC3.previousTurn.toNat defaultPlayer).hand.length = 3 ∧
      (callUno gC3 7 [0, 0]).turn = gC3.turn ∧
      ((callUno (callUno gC3 7 [0, 0]) 9 [1, 2]).players.getD
          gC3.previousTurn.toNat defaultPlayer).hand.length = 3 :=
  ⟨by decide,
    (callUno_penalty_law gC3 7 [0, 0] ⟨5, false, false, [Card.mk CardFace.ONE Color.RED]⟩
      (by decide) (by decide) (by decide) (by decide) (by decide)).1,
    (callUno_penalty_law gC3 7 [0, 0] ⟨5, false, false, [Card.mk CardFace.ONE Color.RED]⟩
      (by decide) (by decide) (by decide) (by decide) (by decide)).2.1,
    (callUno_penalty_law gC3 7 [0, 0] ⟨5, false, false, [Card.mk CardFace.ONE Color.RED]⟩
      (by decide) (by decide) (by decide) (by decide) (by decide)).2.2 9 [1, 2]⟩

/-! ## C10: draw on an exhausted pool is total and silent -/

/-- C10: for every requested count and every state with a current
participant, `drawCards` is total (the loop simply stops on an empty pool,
with no failure and no reshuffle): it moves exactly `min num |pool|`
cards — possibly zero — from the pool into the current participant's
hand, and always clears that participant's `calledUno` flag. -/
theorem drawCards_total_law (g : Game) (num : Nat) (picks : List Nat)
    (h0 : 0 ≤ g.turn) (h1 : g.turn.toNat < g.players.length) :
    ((drawCards g num picks).players.getD g.turn.toNat defaultPlayer).hand.length
        = min num g.discarded.length
          + (g.players.getD g.turn.toNat defaultPlayer).hand.length ∧
      (drawCards g num picks).discarded.length
        = g.discarded.length - min num g.discarded.length ∧
      ((drawCards g num picks).players.getD g.turn.toNat defaultPlayer).calledUno
        = false :=
  ⟨drawCards_hand_length g num picks h0 h1,
    drawCards_discarded_length g num picks h0 h1,
    drawCards_calledUno g num picks h0 h1⟩

/-- A concrete state for the C10 witness: one participant whose flag is
set, a pool holding a single card, and a request to draw three. -/
def gC10 : Game :=
  { players := [⟨5, true, true, [Card.mk CardFace.ONE Color.RED]⟩],
    discarded := [Card.mk CardFace.WILD Color.GREEN],
    topCard := none, turn := 0, previousTurn := -1, direction := 1,
    started := true, makerId := 5 }

/-- Witness for C10: drawing 3 from a pool of 1 moves exactly one card,
empties the pool and clears the flag. -/
theorem drawCards_total_law_witness :
    (0 ≤ gC10.turn) ∧ gC10.turn.toNat < gC10.players.length ∧
      ((drawCards gC10 3 [0]).players.getD gC10.turn.toNat defaultPlayer).hand.length
          = min 3 gC10.discarded.length
            + (gC10.players.getD gC10.turn.toNat defaultPlayer).hand.length ∧
      (drawCards gC10 3 [0]).discarded.length
          = gC10.discarded.length - min 3 gC10.discarded.length ∧
      ((drawCards gC10 3 [0]).players.getD gC10.turn.toNat defaultPlayer).calledUno
          = false :=
  ⟨by decide, by decide, drawCards_total_law gC10 3 [0] (by decide) (by decide)⟩

/-! ## Projection lemmas for the effect-resolution tail -/

theorem nextTurn_direction (g : Game) (s : Nat) : (nextTurn g s).direction = g.direction := rfl

theorem nextTurn_players (g : Game) (s : Nat) : (nextTurn g s).players = g.players := rfl

theorem nextTurn_discarded (g : Game) (s : Nat) : (nextTurn g s).discarded = g.discarded := rfl

theorem nextTurn_turn_nonneg (g : Game) (s : Nat) (h : 0 ≤ g.turn) :
    (nextTurn g s).turn = stepIdx g.turn g.direction g.players.length := by
  unfold nextTurn
  rw [if_neg (by omega)]

theorem drawCards_direction (g : Game) (num : Nat) (picks : List Nat) :
    (drawCards g num picks).direction = g.direction := by
  rw [drawCards]
  split <;> rfl

theorem stepIdx_bounds (t d : Int) (len : Nat) (h0 : 0 ≤ t) (hlt : t < (len : Int))
    (hd : d = 1 ∨ d = -1) : 0 ≤ stepIdx t d len ∧ stepIdx t d len < (len : Int) := by
  rcases hd with rfl | rfl <;>
  · simp only [stepIdx]
    split_ifs <;> omega

theorem stepIdx_two_flip (t d : Int) (h0 : 0 ≤ t) (hlt : t < 2)
    (hd : d = 1 ∨ d = -1) : stepIdx (stepIdx t d 2) d 2 = t := by
  rcases hd with rfl | rfl <;>
  · simp only [stepIdx]
    split_ifs <;> omega

theorem stepIdx_ne_self (t d : Int) (len : Nat) (h0 : 0 ≤ t) (hlt : t < (len : Int))
    (hlen : 2 ≤ len) (hd : d = 1 ∨ d = -1) : stepIdx t d len ≠ t := by
  rcases hd with rfl | rfl <;>
  · simp only [stepIdx]
    split_ifs <;> omega

/-- Unfolding of `playCard` for a legal human play: with a current human
player, a top card, a parsed card passing the wild-color check and the
validation, found in the hand at `selected`, the play commits via the
common tail. -/
theorem playCard_human_eq (g : Game) (p : Player) (top parsed : Card)
    (ch : Choices) (roll : Bool) (selected : Nat)
    (hp : playerAt g g.turn = some p) (htop : g.topCard = some top)
    (hnpc : p.npc = false)
    (hwild : (parsed.face &&& CardFace.WILD_EFFECT != 0 && parsed.color == Color.NONE) = false)
    (hacc : humanPlayAccepts parsed top = true)
    (hfind : findIdxO (fun el => parsed.face == el.face &&
        (parsed.face &&& CardFace.WILD_EFFECT != 0 || parsed.color == el.color)) p.hand
      = some selected) :
    playCard g (some parsed) ch roll
      = finishPlay
          { g with players := modifyIdx g.players g.turn.toNat (fun q =>
              { q with hand := q.hand.eraseIdx selected }) }
          (p.hand.getD selected defaultCard)
          (if parsed.face &&& CardFace.WILD_EFFECT != 0 then some parsed.color else none)
          (p.hand.length - 1) ch := by
  obtain ⟨h0, hlt, -⟩ := playerAt_some hp
  rw [playCard, if_neg (by omega), hp, htop]
  dsimp only
  rw [hnpc]
  simp only [Bool.false_eq_true, if_false]
  rw [humanPlay]
  rw [if_neg (by simp [hwild])]
  rw [hacc]
  simp only [Bool.not_true, Bool.false_eq_true, if_false]
  rw [hfind]
  dsimp only
  rw [htop]

/-! ## C4: reverse-as-skip law -/

/-- With two participants, the effect tail of a Reverse play flips the
direction and performs two `nextTurn` steps (the second consuming the
announced skip), with no draw. -/
theorem finishPlay_reverse_run (g : Game) (card : Card) (nhl : Nat) (ch : Choices)
    (top : Card) (htop : g.topCard = some top)
    (hface : card.face = CardFace.REVERSE) (hnhl : ¬ nhl = 0)
    (hlen2 : g.players.length = 2) :
    finishPlay g card none nhl ch
      = (nextTurn
          (nextTurn
            { g with
              discarded := g.discarded ++ [top],
              topCard := some card,
              previousTurn := g.turn,
              direction := -g.direction }
            ch.nextStart)
          ch.nextStart,
        false) := by
  have hb1 : (CardFace.REVERSE &&& CardFace.REVERSE_EFFECT != 0) = true := by decide
  have hb2 : (CardFace.REVERSE &&& CardFace.SKIP_EFFECT != 0) = false := by decide
  have hb3 : (CardFace.REVERSE &&& CardFace.DRAW_TWO_EFFECT != 0) = false := by decide
  have hb4 : (CardFace.REVERSE &&& CardFace.DRAW_FOUR_EFFECT != 0) = false := by decide
  rw [finishPlay.eq_def, htop]
  simp only [hface, hb1, hb2, hb3, hb4, hlen2, if_neg hnhl, Bool.true_and,
    Bool.or_false, Bool.false_or, Bool.true_or, if_true, if_false, beq_self_eq_true,
    Bool.false_eq_true]

/-- C4: Reverse-as-skip law.  In a game with exactly 2 participants, a
legal Reverse play by the current (human) participant flips the direction
and leaves the same participant current again: the intermediate `nextTurn`
lands on the opponent only as the announced skip, and the second
`nextTurn` returns to the player, so the opponent takes no action in
between; the game does not end on the play. -/
theorem reverse_as_skip_law (g : Game) (p : Player) (top c : Card) (ch : Choices)
    (roll : Bool) (selected : Nat)
    (hp : playerAt g g.turn = some p) (htop : g.topCard = some top)
    (hnpc : p.npc = false) (hface : c.face = CardFace.REVERSE)
    (hlen2 : g.players.length = 2) (hd : g.direction = 1 ∨ g.direction = -1)
    (hacc : humanPlayAccepts c top = true)
    (hfind : findIdxO (fun el => c.face == el.face &&
        (c.face &&& CardFace.WILD_EFFECT != 0 || c.color == el.color)) p.hand
      = some selected)
    (hhand : 2 ≤ p.hand.length) :
    (playCard g (some c) ch roll).1.turn = g.turn ∧
      (playCard g (some c) ch roll).1.direction = -g.direction ∧
      (playCard g (some c) ch roll).2 = false := by
  obtain ⟨h0, hlt, hgd⟩ := playerAt_some hp
  obtain ⟨hsellt, hpred⟩ := findIdxO_some _ _ selected defaultCard hfind
  have hxb : (CardFace.REVERSE &&& CardFace.WILD_EFFECT != 0) = false := by decide
  have hwild : (c.face &&& CardFace.WILD_EFFECT != 0 && c.color == Color.NONE) = false := by
    rw [hface, hxb, Bool.false_and]
  have hcardface : (p.hand.getD selected defaultCard).face = CardFace.REVERSE := by
    simp only [Bool.and_eq_true, beq_iff_eq] at hpred
    rw [← hpred.1, hface]
  rw [playCard_human_eq g p top c ch roll selected hp htop hnpc hwild hacc hfind]
  have hcol : (if (c.face &&& CardFace.WILD_EFFECT != 0) = true then some c.color else none)
      = (none : Option Nat) := by
    rw [hface, hxb]
    simp
  rw [hcol]
  set gM : Game := { g with players := modifyIdx g.players g.turn.toNat (fun q =>
      { q with hand := q.hand.eraseIdx selected }) } with hgM
  have hMtop : gM.topCard = some top := htop
  have hMlen : gM.players.length = 2 := by
    rw [hgM]
    dsimp only
    rw [length_modifyIdx]
    exact hlen2
  have hnhl : ¬ (p.hand.length - 1) = 0 := by omega
  rw [finishPlay_reverse_run gM (p.hand.getD selected defaultCard) _ ch top hMtop
    hcardface hnhl hMlen]
  set gR : Game := { gM with
    discarded := gM.discarded ++ [top],
    topCard := some (p.hand.getD selected defaultCard),
    previousTurn := gM.turn,
    direction := -gM.direction } with hgR
  have hd2 : -g.direction = 1 ∨ -g.direction = -1 := by
    rcases hd with h | h <;> simp [h]
  have e1 : gR.turn = g.turn := rfl
  have e2 : gR.direction = -g.direction := rfl
  have e3 : gR.players.length = 2 := hMlen
  have hlt2 : g.turn < (2 : Int) := by omega
  refine ⟨?_, rfl, rfl⟩
  have hin : (nextTurn gR ch.nextStart).turn = stepIdx g.turn (-g.direction) 2 := by
    rw [nextTurn_turn_nonneg gR ch.nextStart (by rw [e1]; exact h0), e1, e2, e3]
  have hbounds := stepIdx_bounds g.turn (-g.direction) 2 h0 hlt2 hd2
  have hout : (nextTurn (nextTurn gR ch.nextStart) ch.nextStart).turn
      = stepIdx (stepIdx g.turn (-g.direction) 2) (-g.direction) 2 := by
    rw [nextTurn_turn_nonneg _ _ (by rw [hin]; exact hbounds.1)]
    rw [nextTurn_direction, nextTurn_players, hin, e2, e3]
  show (nextTurn (nextTurn gR ch.nextStart) ch.nextStart).turn = g.turn
  rw [hout, stepIdx_two_flip g.turn (-g.direction) h0 hlt2 hd2]

/-- Default choice parameters for concrete runs. -/
def chDefault : Choices := ⟨0, 0, 0, 0, []⟩

/-- The current (human) player of the C4 witness game. -/
def pC4 : Player :=
  ⟨5, false, false, [Card.mk CardFace.REVERSE Color.RED, Card.mk CardFace.ONE Color.RED]⟩

/-- A concrete two-player game for the C4 witness: human at turn 0 holds
Red Reverse and Red One, top card Red 5. -/
def gC4 : Game :=
  { players := [pC4, ⟨6, false, false, [Card.mk CardFace.TWO Color.BLUE]⟩],
    discarded := [Card.mk CardFace.THREE Color.GREEN],
    topCard := some (Card.mk CardFace.FIVE Color.RED), turn := 0, previousTurn := -1,
    direction := 1, started := true, makerId := 5 }

/-- Witness for C4: playing Red Reverse in `gC4` leaves player 0 current
and flips the direction. -/
theorem reverse_as_skip_law_witness :
    (playerAt gC4 gC4.turn = some pC4) ∧
      humanPlayAccepts (Card.mk CardFace.REVERSE Color.RED)
        (Card.mk CardFace.FIVE Color.RED) = true ∧
      (playCard gC4 (some (Card.mk CardFace.REVERSE Color.RED)) chDefault false).1.turn
        = gC4.turn ∧
      (playCard gC4 (some (Card.mk CardFace.REVERSE Color.RED)) chDefault false).1.direction
        = -gC4.direction ∧
      (playCard gC4 (some (Card.mk CardFace.REVERSE Color.RED)) chDefault false).2 = false :=
  ⟨by decide, by decide,
    (reverse_as_skip_law gC4 pC4 (Card.mk CardFace.FIVE Color.RED)
      (Card.mk CardFace.REVERSE Color.RED) chDefault false 0 (by decide) (by decide)
      (by decide) (by decide) (by decide) (by decide) (by decide) (by decide) (by decide)).1,
    (reverse_as_skip_law gC4 pC4 (Card.mk CardFace.FIVE Color.RED)
      (Card.mk CardFace.REVERSE Color.RED) chDefault false 0 (by decide) (by decide)
      (by decide) (by decide) (by decide) (by decide) (by decide) (by decide) (by decide)).2.1,
    (reverse_as_skip_law gC4 pC4 (Card.mk CardFace.FIVE Color.RED)
      (Card.mk CardFace.REVERSE Color.RED) chDefault false 0 (by decide) (by decide)
      (by decide) (by decide) (by decide) (by decide) (by decide) (by decide) (by decide)).2.2⟩

/-! ## C5: draw-two law -/

/-- The effect tail of a DrawTwo play: advance with the skip announcement,
deal 2 cards to the new current player, then advance again. -/
theorem finishPlay_drawTwo_run (g : Game) (card : Card) (nhl : Nat) (ch : Choices)
    (top : Card) (htop : g.topCard = some top)
    (hface : card.face = CardFace.DRAW_TWO) (hnhl : ¬ nhl = 0) :
    finishPlay g card none nhl ch
      = (nextTurn
          (drawCards
            (nextTurn
              { g with
                discarded := g.discarded ++ [top],
                topCard := some card,
                previousTurn := g.turn }
              ch.nextStart)
            2 ch.drawPicks)
          ch.nextStart,
        false) := by
  have hb1 : (CardFace.DRAW_TWO &&& CardFace.REVERSE_EFFECT != 0) = false := by decide
  have hb2 : (CardFace.DRAW_TWO &&& CardFace.SKIP_EFFECT != 0) = true := by decide
  have hb3 : (CardFace.DRAW_TWO &&& CardFace.DRAW_TWO_EFFECT != 0) = true := by decide
  have hb4 : (CardFace.DRAW_TWO &&& CardFace.DRAW_FOUR_EFFECT != 0) = false := by decide
  rw [finishPlay.eq_def, htop]
  simp only [hface, hb1, hb2, hb3, hb4, if_neg hnhl, Bool.false_and, Bool.false_or,
    Bool.true_or, Bool.or_true, if_true, if_false, Bool.false_eq_true]

/-- C5: Draw-two law.  When the current (human) participant legally plays a
DrawTwo and the game does not end on that play, the next participant in
turn order gains exactly 2 cards (the pool, holding the old top card plus
at least one other card, has at least 2), makes zero plays that turn (the
single `playCard` call passes over them), and the turn lands on the
participant after them. -/
theorem draw_two_law (g : Game) (p q : Player) (top c : Card) (ch : Choices)
    (roll : Bool) (selected : Nat)
    (hp : playerAt g g.turn = some p) (htop : g.topCard = some top)
    (hnpc : p.npc = false) (hface : c.face = CardFace.DRAW_TWO)
    (hlen : 2 ≤ g.players.length) (hd : g.direction = 1 ∨ g.direction = -1)
    (hacc : humanPlayAccepts c top = true)
    (hfind : findIdxO (fun el => c.face == el.face &&
        (c.face &&& CardFace.WILD_EFFECT != 0 || c.color == el.color)) p.hand
      = some selected)
    (hhand : 2 ≤ p.hand.length)
    (hq : playerAt g (stepIdx g.turn g.direction g.players.length) = some q)
    (hpool : 1 ≤ g.discarded.length) :
    ((playCard g (some c) ch roll).1.players.getD
        (stepIdx g.turn g.direction g.players.length).toNat defaultPlayer).hand.length
        = q.hand.length + 2 ∧
      (playCard g (some c) ch roll).1.turn
        = stepIdx (stepIdx g.turn g.direction g.players.length) g.direction
            g.players.length ∧
      (playCard g (some c) ch roll).2 = false := by
  obtain ⟨h0, hlt, hgd⟩ := playerAt_some hp
  obtain ⟨hn0, hnlt, hqgd⟩ := playerAt_some hq
  obtain ⟨hsellt, hpred⟩ := findIdxO_some _ _ selected defaultCard hfind
  have hxb : (CardFace.DRAW_TWO &&& CardFace.WILD_EFFECT != 0) = false := by decide
  have hwild : (c.face &&& CardFace.WILD_EFFECT != 0 && c.color == Color.NONE) = false := by
    rw [hface, hxb, Bool.false_and]
  have hcardface : (p.hand.getD selected defaultCard).face = CardFace.DRAW_TWO := by
    simp only [Bool.and_eq_true, beq_iff_eq] at hpred
    rw [← hpred.1, hface]
  rw [playCard_human_eq g p top c ch roll selected hp htop hnpc hwild hacc hfind]
  have hcol : (if (c.face &&& CardFace.WILD_EFFECT != 0) = true then some c.color else none)
      = (none : Option Nat) := by
    rw [hface, hxb]
    simp
  rw [hcol]
  set gM : Game := { g with players := modifyIdx g.players g.turn.toNat (fun r =>
      { r with hand := r.hand.eraseIdx selected }) } with hgM
  have hMtop : gM.topCard = some top := htop
  have hMlen : gM.players.length = g.players.length := by
    rw [hgM]
    dsimp only
    rw [length_modifyIdx]
  have hnhl : ¬ (p.hand.length - 1) = 0 := by omega
  rw [finishPlay_drawTwo_run gM (p.hand.getD selected defaultCard) _ ch top hMtop
    hcardface hnhl]
  set n1 : Int := stepIdx g.turn g.direction g.players.length with hn1
  set gT : Game := { gM with
    discarded := gM.discarded ++ [top],
    topCard := some (p.hand.getD selected defaultCard),
    previousTurn := gM.turn } with hgT
  have eT1 : gT.turn = g.turn := rfl
  have eT2 : gT.direction = g.direction := rfl
  have eT3 : gT.players.length = g.players.length := hMlen
  have eT4 : gT.players = gM.players := rfl
  set gN : Game := nextTurn gT ch.nextStart with hgN
  have eN1 : gN.turn = n1 := by
    rw [hgN, nextTurn_turn_nonneg gT ch.nextStart (by rw [eT1]; exact h0), eT1, eT2, eT3]
  have eN2 : gN.direction = g.direction := eT2
  have eN3 : gN.players = gM.players := eT4
  have eN4 : gN.discarded = gM.discarded ++ [top] := rfl
  have hlt2 : g.turn < (g.players.length : Int) := by omega
  have hne : n1 ≠ g.turn := by
    rw [hn1]
    exact stepIdx_ne_self g.turn g.direction g.players.length h0 hlt2 hlen hd
  have htoNe : n1.toNat ≠ g.turn.toNat := by omega
  set gD : Game := drawCards gN 2 ch.drawPicks with hgD
  have eD0 : 0 ≤ gN.turn := by
    rw [eN1]
    exact hn0
  have eD1 : gN.turn.toNat < gN.players.length := by
    rw [eN1, eN3, hgM]
    dsimp only
    rw [length_modifyIdx]
    omega
  have hDhand := drawCards_hand_length gN 2 ch.drawPicks eD0 eD1
  have hpoolN : 2 ≤ gN.discarded.length := by
    rw [eN4, List.length_append]
    simp [hgM]
    omega
  have hqN : (gN.players.getD n1.toNat defaultPlayer) = q := by
    rw [eN3, hgM]
    dsimp only
    rw [getD_modifyIdx_ne _ _ _ _ _ (fun e => htoNe e.symm)]
    exact hqgd
  rw [eN1] at hDhand
  rw [hqN] at hDhand
  refine ⟨?_, ?_, rfl⟩
  · show ((nextTurn gD ch.nextStart).players.getD n1.toNat defaultPlayer).hand.length
      = q.hand.length + 2
    rw [nextTurn_players, hgD, hDhand]
    omega
  · show (nextTurn gD ch.nextStart).turn = stepIdx n1 g.direction g.players.length
    rw [nextTurn_turn_nonneg gD ch.nextStart
      (by rw [hgD, drawCards_turn, eN1]; exact hn0)]
    rw [hgD, drawCards_turn, drawCards_direction, drawCards_players_length, eN1, eN2,
      eN3, hMlen]

/-- The current (human) player of the C5 witness game. -/
def pC5 : Player :=
  ⟨5, false, false, [Card.mk CardFace.DRAW_TWO Color.RED, Card.mk CardFace.ONE Color.RED]⟩

/-- The opponent of the C5 witness game. -/
def qC5 : Player := ⟨6, true, false, [Card.mk CardFace.TWO Color.BLUE]⟩

/-- A concrete two-player game for the C5 witness. -/
def gC5 : Game :=
  { players := [pC5, qC5],
    discarded := [Card.mk CardFace.THREE Color.GREEN, Card.mk CardFace.FOUR Color.GREEN],
    topCard := some (Card.mk CardFace.FIVE Color.RED), turn := 0, previousTurn := -1,
    direction := 1, started := true, makerId := 5 }

/-- Witness for C5: playing Red DrawTwo in `gC5` grows the opponent's hand
from 1 to 3 and passes the turn back to player 0. -/
theorem draw_two_law_witness :
    (playerAt gC5 gC5.turn = some pC5) ∧
      (playerAt gC5 (stepIdx gC5.turn gC5.direction gC5.players.length) = some qC5) ∧
      ((playCard gC5 (some (Card.mk CardFace.DRAW_TWO Color.RED)) chDefault false).1.players.getD
          (stepIdx gC5.turn gC5.direction gC5.players.length).toNat defaultPlayer).hand.length
        = qC5.hand.length + 2 ∧
      (playCard gC5 (some (Card.mk CardFace.DRAW_TWO Color.RED)) chDefault false).1.turn
        = stepIdx (stepIdx gC5.turn gC5.direction gC5.players.length) gC5.direction
            gC5.players.length ∧
      (playCard gC5 (some (Card.mk CardFace.DRAW_TWO Color.RED)) chDefault false).2 = false :=
  ⟨by decide, by decide,
    (draw_two_law gC5 pC5 qC5 (Card.mk CardFace.FIVE Color.RED)
      (Card.mk CardFace.DRAW_TWO Color.RED) chDefault false 0 (by decide) (by decide)
      (by decide) (by decide) (by decide) (by decide) (by decide) (by decide) (by decide)
      (by decide) (by decide)).1,
    (draw_two_law gC5 pC5 qC5 (Card.mk CardFace.FIVE Color.RED)
      (Card.mk CardFace.DRAW_TWO Color.RED) chDefault false 0 (by decide) (by decide)
      (by decide) (by decide) (by decide) (by decide) (by decide) (by decide) (by decide)
      (by decide) (by decide)).2.1,
    (draw_two_law gC5 pC5 qC5 (Card.mk CardFace.FIVE Color.RED)
      (Card.mk CardFace.DRAW_TWO Color.RED) chDefault false 0 (by decide) (by decide)
      (by decide) (by decide) (by decide) (by decide) (by decide) (by decide) (by decide)
      (by decide) (by decide)).2.2⟩

/-! ## C6: NPC decision policy -/

/-- The color actually committed as the new top card: the chosen wild color
applied over the played card. -/
def applyColor (card : Card) (color : Option Nat) : Card :=
  match color with
  | some c => { card with color := c }
  | none => card

/-- The effect-resolution tail of `finishPlay` (uno.js lines 1200-1226)
factored as a function of the committed state and the committed card:
reverse flips the direction (skipping with 2 players), the first `nextTurn`
advances, draw effects deal to the new current player, and a skip consumes
a second `nextTurn`. -/
def effectTail (g : Game) (card1 : Card) (ch : Choices) : Game :=
  let revBit := card1.face &&& CardFace.REVERSE_EFFECT != 0
  let skipping := revBit && g.players.length == 2
  let g4 := if revBit then { g with direction := -g.direction } else g
  let skipFlag := skipping || (card1.face &&& CardFace.SKIP_EFFECT != 0)
  let g5 := nextTurn g4 ch.nextStart
  let g6 := if card1.face &&& CardFace.DRAW_TWO_EFFECT != 0 then drawCards g5 2 ch.drawPicks else g5
  let g7 := if card1.face &&& CardFace.DRAW_FOUR_EFFECT != 0 then drawCards g6 4 ch.drawPicks else g6
  if skipFlag then nextTurn g7 ch.nextStart else g7

/-- Restructuring of `finishPlay` as: commit the card, then either end on a
win or run the effect tail. -/
theorem finishPlay_eq (g : Game) (card : Card) (color : Option Nat) (nhl : Nat)
    (ch : Choices) :
    finishPlay g card color nhl ch
      = (let card1 := applyColor card color
         let g2 : Game := { g with
           discarded := match g.topCard with
             | some tc => g.discarded ++ [tc]
             | none => g.discarded,
           topCard := some card1 }
         if nhl = 0 then
           ((if (match playerAt g2 g2.turn with | some p => p.npc | none => false) = true
             then endGame g2 else g2), true)
         else (effectTail { g2 with previousTurn := g2.turn } card1 ch, false)) := by
  rw [finishPlay.eq_def]
  rcases htc : g.topCard with _ | tc <;> rcases color with _ | cc <;>
    simp only [applyColor, effectTail, htc]

theorem nextTurn_topCard (g : Game) (s : Nat) : (nextTurn g s).topCard = g.topCard := rfl

theorem drawCards_topCard (g : Game) (n : Nat) (p : List Nat) :
    (drawCards g n p).topCard = g.topCard := by
  rw [drawCards]
  split <;> rfl

theorem turn_ite_drawCards (c : Prop) [Decidable c] (x : Game) (n : Nat)
    (picks : List Nat) : (if c then drawCards x n picks else x).turn = x.turn := by
  split
  · exact drawCards_turn x n picks
  · rfl

theorem getD_ite_drawCards_ne (c : Prop) [Decidable c] (x : Game) (n : Nat)
    (picks : List Nat) (j : Nat) (hj : j ≠ x.turn.toNat) :
    ((if c then drawCards x n picks else x).players.getD j defaultPlayer)
      = x.players.getD j defaultPlayer := by
  split
  · exact drawCards_getD_ne x n picks j hj
  · rfl

theorem players_ite_nextTurn (c : Prop) [Decidable c] (x : Game) (s : Nat) :
    (if c then nextTurn x s else x).players = x.players := by
  split <;> rfl

theorem effectTail_topCard (g : Game) (card1 : Card) (ch : Choices) :
    (effectTail g card1 ch).topCard = g.topCard := by
  simp only [effectTail, apply_ite Game.topCard, drawCards_topCard, nextTurn_topCard,
    ite_self]


theorem effectTail_getD_hand_self (x : Game) (card1 : Card) (ch : Choices) (j : Nat)
    (hj : x.turn.toNat = j)
    (h0 : 0 ≤ x.turn) (hlt : x.turn.toNat < x.players.length)
    (hlen : 2 ≤ x.players.length) (hd : x.direction = 1 ∨ x.direction = -1) :
    ((effectTail x card1 ch).players.getD j defaultPlayer).hand
      = (x.players.getD j defaultPlayer).hand := by
  subst hj
  simp only [effectTail]
  set G4 : Game := if (card1.face &&& CardFace.REVERSE_EFFECT != 0) = true
      then { x with direction := -x.direction } else x with hG4
  have f1 : G4.turn = x.turn := by
    rw [hG4]
    split <;> rfl
  have f2 : G4.players = x.players := by
    rw [hG4]
    split <;> rfl
  have f3 : G4.direction = 1 ∨ G4.direction = -1 := by
    rw [hG4]
    split
    · dsimp only
      rcases hd with h | h <;> simp [h]
    · exact hd
  set G5 : Game := nextTurn G4 ch.nextStart with hG5
  have f4 : G5.turn = stepIdx x.turn G4.direction x.players.length := by
    rw [hG5, nextTurn_turn_nonneg G4 ch.nextStart (by rw [f1]; exact h0), f1, f2]
  have f5 : G5.players = x.players := f2
  have hneq : x.turn.toNat ≠ G5.turn.toNat := by
    have h1 := stepIdx_ne_self x.turn G4.direction x.players.length h0 (by omega) hlen f3
    have hb := stepIdx_bounds x.turn G4.direction x.players.length h0 (by omega) f3
    rw [f4]
    omega
  set G6 : Game := if (card1.face &&& CardFace.DRAW_TWO_EFFECT != 0) = true
      then drawCards G5 2 ch.drawPicks else G5 with hG6
  have f6 : G6.turn = G5.turn := by
    rw [hG6]
    exact turn_ite_drawCards _ _ _ _
  have f7 : G6.players.getD x.turn.toNat defaultPlayer
      = G5.players.getD x.turn.toNat defaultPlayer := by
    rw [hG6]
    exact getD_ite_drawCards_ne _ _ _ _ _ hneq
  set G7 : Game := if (card1.face &&& CardFace.DRAW_FOUR_EFFECT != 0) = true
      then drawCards G6 4 ch.drawPicks else G6 with hG7
  have f8 : G7.players.getD x.turn.toNat defaultPlayer
      = G6.players.getD x.turn.toNat defaultPlayer := by
    rw [hG7]
    exact getD_ite_drawCards_ne _ _ _ _ _ (by rw [f6]; exact hneq)
  rw [players_ite_nextTurn, f8, f7, f5]

theorem applyColor_face (c : Card) (col : Option Nat) : (applyColor c col).face = c.face := by
  rcases col <;> rfl

theorem endGame_topCard (g : Game) : (endGame g).topCard = g.topCard := rfl

theorem getD_map_clear (ps : List Player) (j : Nat) :
    ((ps.map (fun p => { p with hand := [] })).getD j defaultPlayer).hand = [] := by
  induction ps generalizing j with
  | nil => rfl
  | cons x xs ih =>
    cases j with
    | zero => rfl
    | succ m => simpa using ih m

theorem hand_ite_endGame_nil (c : Prop) [Decidable c] (g2 : Game) (j : Nat)
    (hh : (g2.players.getD j defaultPlayer).hand = []) :
    ((if c then endGame g2 else g2).players.getD j defaultPlayer).hand = [] := by
  split
  · rw [endGame]
    dsimp only
    rw [getD_map_clear]
  · exact hh

theorem topCard_ite_endGame (c : Prop) [Decidable c] (g2 : Game) :
    (if c then endGame g2 else g2).topCard = g2.topCard := by
  split
  · exact endGame_topCard g2
  · rfl

/-- C6: NPC policy.  On an autonomous participant's turn (turn committed, so
not the first play) with the catch-previous random roll false: if some card
is legal, the card played is the one at the LARGEST index `i` with
`checkCard(hand[i], topCard)` (cards are prepended on draw, so this is the
oldest card); the hand loses exactly that card and the new top card has its
face.  If no card is legal, the NPC draws exactly one card (the pool being
nonempty) and the turn advances with no play and an unchanged top card. -/
theorem npc_policy_law (g : Game) (p : Player) (top : Card) (ch : Choices)
    (text : Option Card)
    (hp : playerAt g g.turn = some p) (htop : g.topCard = some top)
    (hnpc : p.npc = true) (hlen : 2 ≤ g.players.length)
    (hd : g.direction = 1 ∨ g.direction = -1)
    (hpool : 1 ≤ g.discarded.length) :
    (∀ i, npcSelect p.hand top = some i →
      i < p.hand.length ∧
        checkCard (p.hand.getD i defaultCard) top = true ∧
        (∀ j, i < j → j < p.hand.length →
          checkCard (p.hand.getD j defaultCard) top = false) ∧
        ((playCard g text ch false).1.players.getD g.turn.toNat defaultPlayer).hand
          = p.hand.eraseIdx i ∧
        ∃ played, (playCard g text ch false).1.topCard = some played ∧
          played.face = (p.hand.getD i defaultCard).face) ∧
      (npcSelect p.hand top = none →
        (∀ j, j < p.hand.length → checkCard (p.hand.getD j defaultCard) top = false) ∧
        ((playCard g text ch false).1.players.getD g.turn.toNat defaultPlayer).hand.length
          = p.hand.length + 1 ∧
        (playCard g text ch false).1.turn
          = stepIdx g.turn g.direction g.players.length ∧
        (playCard g text ch false).1.topCard = some top) := by
  obtain ⟨h0, hlt, hgd⟩ := playerAt_some hp
  have hplay : playCard g text ch false = npcPlay g p top ch false := by
    rw [playCard, if_neg (by omega), hp, htop]
    dsimp only
    rw [hnpc, if_pos rfl]
  have hnproll : npcPlay g p top ch false
      = match npcSelect p.hand top with
        | none => (drawAndSkip g 1 ch.drawPicks ch.nextStart, false)
        | some selected =>
          finishPlay
            { g with players := modifyIdx g.players g.turn.toNat (fun q =>
                { q with hand := q.hand.eraseIdx selected }) }
            (p.hand.getD selected defaultCard)
            (if (p.hand.getD selected defaultCard).face &&& CardFace.WILD_EFFECT != 0 then
              some (if (collectColors p.hand).length = 0 then ch.wildColor % 4 + 1
                else (collectColors p.hand).getD
                  (ch.colorPick % (collectColors p.hand).length) 0)
            else none)
            (p.hand.length - 1) ch := by
    rw [npcPlay]
    simp only [Bool.and_false, Bool.false_eq_true, if_false]
  constructor
  · intro i hsel
    obtain ⟨hilt, hichk, himax⟩ := npcSelectAux_some p.hand top p.hand.length i hsel
    refine ⟨hilt, hichk, fun j h1 h2 => himax j h1 h2, ?_, ?_⟩
    · rw [hplay, hnproll, hsel]
      dsimp only
      rw [htop]
      set colorE : Option Nat :=
        (if ((p.hand.getD i defaultCard).face &&& CardFace.WILD_EFFECT != 0) = true then
          some (if (collectColors p.hand).length = 0 then ch.wildColor % 4 + 1
            else (collectColors p.hand).getD
              (ch.colorPick % (collectColors p.hand).length) 0)
        else none) with hcolorE
      rw [finishPlay_eq]
      dsimp only
      by_cases hz : p.hand.length - 1 = 0
      · rw [if_pos hz]
        have herase : p.hand.eraseIdx i = [] := by
          have := length_eraseIdx_lt p.hand i hilt
          have hlz : (p.hand.eraseIdx i).length = 0 := by omega
          exact List.eq_nil_of_length_eq_zero hlz
        rw [herase]
        dsimp only
        apply hand_ite_endGame_nil
        dsimp only
        rw [getD_modifyIdx_self _ _ _ _ hlt, hgd]
        dsimp only
        rw [herase]
      · rw [if_neg hz]
        dsimp only
        rw [effectTail_getD_hand_self]
        · dsimp only
          rw [getD_modifyIdx_self _ _ _ _ hlt, hgd]
        · rfl
        · exact h0
        · dsimp only
          rw [length_modifyIdx]
          exact hlt
        · dsimp only
          rw [length_modifyIdx]
          exact hlen
        · exact hd
    · rw [hplay, hnproll, hsel]
      dsimp only
      rw [htop]
      set colorE : Option Nat :=
        (if ((p.hand.getD i defaultCard).face &&& CardFace.WILD_EFFECT != 0) = true then
          some (if (collectColors p.hand).length = 0 then ch.wildColor % 4 + 1
            else (collectColors p.hand).getD
              (ch.colorPick % (collectColors p.hand).length) 0)
        else none) with hcolorE
      rw [finishPlay_eq]
      dsimp only
      refine ⟨applyColor (p.hand.getD i defaultCard) colorE, ?_, applyColor_face _ _⟩
      by_cases hz : p.hand.length - 1 = 0
      · rw [if_pos hz]
        dsimp only
        rw [topCard_ite_endGame]
      · rw [if_neg hz]
        dsimp only
        rw [effectTail_topCard]
  · intro hsel
    refine ⟨npcSelectAux_none p.hand top p.hand.length hsel, ?_, ?_, ?_⟩
    · rw [hplay, hnproll, hsel]
      dsimp only
      show ((nextTurn (drawCards g 1 ch.drawPicks) ch.nextStart).players.getD
        g.turn.toNat defaultPlayer).hand.length = p.hand.length + 1
      rw [nextTurn_players, drawCards_hand_length g 1 ch.drawPicks h0 hlt, hgd]
      omega
    · rw [hplay, hnproll, hsel]
      dsimp only
      show (nextTurn (drawCards g 1 ch.drawPicks) ch.nextStart).turn
        = stepIdx g.turn g.direction g.players.length
      rw [nextTurn_turn_nonneg _ _ (by rw [drawCards_turn]; exact h0)]
      rw [drawCards_turn, drawCards_direction, drawCards_players_length]
    · rw [hplay, hnproll, hsel]
      dsimp only
      show (nextTurn (drawCards g 1 ch.drawPicks) ch.nextStart).topCard = some top
      rw [nextTurn_topCard, drawCards_topCard, htop]

/-- The NPC of the C6 witness game: newest card Blue 1 at index 0, oldest
card Red 5 at index 1. -/
def pC6 : Player :=
  ⟨7, true, false, [Card.mk CardFace.ONE Color.BLUE, Card.mk CardFace.FIVE Color.RED]⟩

/-- A concrete game for the C6 witness: NPC to move against top card
Green 5; only Red 5 (rank match) is legal. -/
def gC6 : Game :=
  { players := [pC6, ⟨8, false, false, [Card.mk CardFace.TWO Color.BLUE]⟩],
    discarded := [Card.mk CardFace.THREE Color.GREEN],
    topCard := some (Card.mk CardFace.FIVE Color.GREEN), turn := 0, previousTurn := -1,
    direction := 1, started := true, makerId := 8 }

/-- Witness for C6: in `gC6` the NPC plays the oldest legal card (index 1,
Red 5) and its hand becomes the erasure at that index. -/
theorem npc_policy_law_witness :
    (playerAt gC6 gC6.turn = some pC6) ∧
      npcSelect pC6.hand (Card.mk CardFace.FIVE Color.GREEN) = some 1 ∧
      1 < pC6.hand.length ∧
      checkCard (pC6.hand.getD 1 defaultCard) (Card.mk CardFace.FIVE Color.GREEN) = true ∧
      ((playCard gC6 none chDefault false).1.players.getD gC6.turn.toNat defaultPlayer).hand
        = pC6.hand.eraseIdx 1 :=
  ⟨by decide, by decide,
    ((npc_policy_law gC6 pC6 (Card.mk CardFace.FIVE Color.GREEN) chDefault none
      (by decide) (by decide) (by decide) (by decide) (by decide) (by decide)).1
        1 (by decide)).1,
    ((npc_policy_law gC6 pC6 (Card.mk CardFace.FIVE Color.GREEN) chDefault none
      (by decide) (by decide) (by decide) (by decide) (by decide) (by decide)).1
        1 (by decide)).2.1,
    ((npc_policy_law gC6 pC6 (Card.mk CardFace.FIVE Color.GREEN) chDefault none
      (by decide) (by decide) (by decide) (by decide) (by decide) (by decide)).1
        1 (by decide)).2.2.2.1⟩

/-! ## C7: wild color invariant -/

/-- Every wild-kind card held in any hand has color `NONE` (because
`drawCards` resets wild colors on draw). -/
def HandsWildNone (g : Game) : Prop :=
  ∀ p ∈ g.players, ∀ c ∈ p.hand, c.face &&& CardFace.WILD_EFFECT ≠ 0 → c.color = Color.NONE

theorem mem_modifyIdx {α : Type} {l : List α} {i : Nat} {f : α → α} {a : α}
    (h : a ∈ modifyIdx l i f) : a ∈ l ∨ ∃ b ∈ l, a = f b := by
  induction l generalizing i with
  | nil => simp [modifyIdx] at h
  | cons x xs ih =>
    cases i with
    | zero =>
      rcases List.mem_cons.mp h with rfl | h2
      · right
        exact ⟨x, by simp, rfl⟩
      · left
        simp [h2]
    | succ n =>
      rcases List.mem_cons.mp h with rfl | h2
      · left
        simp
      · rcases ih h2 with h3 | ⟨b, hb, rfl⟩
        · left
          simp [h3]
        · right
          exact ⟨b, by simp [hb], rfl⟩

theorem handsWildNone_modify (g : Game) (i : Nat) (f : Player → Player)
    (hf : ∀ q, ∀ c ∈ (f q).hand, c ∈ q.hand)
    (h : HandsWildNone g) :
    HandsWildNone { g with players := modifyIdx g.players i f } := by
  intro p' hp' c hc hw
  rcases mem_modifyIdx hp' with hmem | ⟨q, hq, rfl⟩
  · exact h p' hmem c hc hw
  · exact h q hq c (hf q c hc) hw

theorem handsWildNone_drawCards (g : Game) (num : Nat) (picks : List Nat)
    (h : HandsWildNone g) : HandsWildNone (drawCards g num picks) := by
  rw [drawCards]
  split
  · intro p' hp' c hc hw
    dsimp only at hp'
    rcases mem_modifyIdx hp' with hmem | ⟨q, hq, rfl⟩
    · exact h p' hmem c hc hw
    · dsimp only at hc
      have hc' : c ∈ (drawLoop g.discarded num picks).1 ++ q.hand := by
        rcases hq2 : q.npc with _ | _
        · rw [hq2] at hc
          simp only [Bool.false_eq_true, if_false] at hc
          exact mem_sortHand.mp hc
        · rw [hq2] at hc
          simpa using hc
      rcases List.mem_append.mp hc' with hdrawn | hold
      · exact drawLoop_wild _ _ _ _ hdrawn hw
      · exact h q hq c hold hw
  · exact h

theorem handsWildNone_nextTurn (g : Game) (s : Nat) (h : HandsWildNone g) :
    HandsWildNone (nextTurn g s) := h

theorem handsWildNone_endGame (g : Game) : HandsWildNone (endGame g) := by
  intro p' hp' c hc hw
  rcases List.mem_map.mp hp' with ⟨q, hq, rfl⟩
  simp at hc

theorem handsWildNone_ite_drawCards (c : Prop) [Decidable c] (x : Game) (n : Nat)
    (picks : List Nat) (h : HandsWildNone x) :
    HandsWildNone (if c then drawCards x n picks else x) := by
  split
  · exact handsWildNone_drawCards x n picks h
  · exact h

theorem handsWildNone_effectTail (g : Game) (card1 : Card) (ch : Choices)
    (h : HandsWildNone g) : HandsWildNone (effectTail g card1 ch) := by
  simp only [effectTail]
  have h4 : HandsWildNone (if (card1.face &&& CardFace.REVERSE_EFFECT != 0) = true
      then { g with direction := -g.direction } else g) := by
    split
    · exact h
    · exact h
  have h6 := handsWildNone_ite_drawCards
    ((card1.face &&& CardFace.DRAW_TWO_EFFECT != 0) = true) _ 2 ch.drawPicks
    (handsWildNone_nextTurn _ ch.nextStart h4)
  have h7 := handsWildNone_ite_drawCards
    ((card1.face &&& CardFace.DRAW_FOUR_EFFECT != 0) = true) _ 4 ch.drawPicks h6
  split
  · exact handsWildNone_nextTurn _ _ h7
  · exact h7

theorem handsWildNone_finishPlay (g : Game) (card : Card) (color : Option Nat)
    (nhl : Nat) (ch : Choices) (h : HandsWildNone g) :
    HandsWildNone (finishPlay g card color nhl ch).1 := by
  rw [finishPlay_eq]
  dsimp only
  split
  · split
    · exact handsWildNone_endGame _
    · exact h
  · exact handsWildNone_effectTail _ _ _ h

theorem handsWildNone_callUno (g : Game) (caller : Nat) (picks : List Nat)
    (h : HandsWildNone g) : HandsWildNone (callUno g caller picks) := by
  simp only [callUno]
  have h1 : HandsWildNone (callUnoCurrent g caller) := by
    rw [callUnoCurrent]
    rcases hq : playerAt g g.turn with _ | q
    · exact h
    · dsimp only
      split
      · exact handsWildNone_modify g _ _ (fun r c hc => hc) h
      · exact h
  have h2 : HandsWildNone (callUnoPrevious (callUnoCurrent g caller) caller) := by
    rw [callUnoPrevious]
    rcases hq : playerAt (callUnoCurrent g caller) (callUnoCurrent g caller).previousTurn
      with _ | q
    · exact h1
    · dsimp only
      split
      · exact handsWildNone_modify _ _ _ (fun r c hc => hc) h1
      · exact h1
  split
  · rw [callUnoPenalty]
    rcases hq : playerAt (callUnoPrevious (callUnoCurrent g caller) caller)
        (callUnoPrevious (callUnoCurrent g caller) caller).previousTurn with _ | q
    · exact h2
    · dsimp only
      split
      · exact handsWildNone_drawCards _ 2 picks h2
      · exact h2
  · exact h1

theorem handsWildNone_humanPlay (g : Game) (p : Player) (top parsed : Card)
    (ch : Choices) (h : HandsWildNone g) :
    HandsWildNone (humanPlay g p top parsed ch).1 := by
  rw [humanPlay]
  dsimp only
  split
  · exact h
  · split
    · exact h
    · split
      · exact h
      · exact handsWildNone_finishPlay _ _ _ _ _
          (handsWildNone_modify _ _ _ (fun r c hc => mem_of_mem_eraseIdx hc) h)

theorem handsWildNone_playCard (g : Game) (text : Option Card) (ch : Choices)
    (roll : Bool) (h : HandsWildNone g) :
    HandsWildNone (playCard g text ch roll).1 := by
  rw [playCard]
  split
  · rw [firstPlay]
    split
    · exact h
    · exact handsWildNone_finishPlay _ _ _ _ _ h
  · split
    · next p top hp htop =>
      split
      · rw [npcPlay]
        split
        · exact handsWildNone_callUno _ _ _ h
        · split
          · exact handsWildNone_nextTurn _ _ (handsWildNone_drawCards _ _ _ h)
          · exact handsWildNone_finishPlay _ _ _ _ _
              (handsWildNone_modify _ _ _ (fun r c hc => mem_of_mem_eraseIdx hc) h)
      · rcases text with _ | parsed
        · exact h
        · exact handsWildNone_humanPlay _ _ _ _ _ h
    · exact h

theorem handsWildNone_ite_nextTurn (c : Prop) [Decidable c] (x : Game) (s : Nat)
    (h : HandsWildNone x) : HandsWildNone (if c then nextTurn x s else x) := by
  split
  · exact h
  · exact h

theorem handsWildNone_removePlayer (g : Game) (pid : Nat) (s : Nat)
    (h : HandsWildNone g) : HandsWildNone (removePlayer g pid s) := by
  rw [removePlayer]
  split
  · exact h
  · split
    · exact h
    · next index hidx =>
      have hbase : HandsWildNone { g with
          discarded := g.discarded ++ (g.players.getD index defaultPlayer).hand,
          players := g.players.eraseIdx index } := by
        intro p' hp' c hc hw
        exact h p' (mem_of_mem_eraseIdx hp') c hc hw
      exact handsWildNone_ite_nextTurn _ _ s hbase

theorem handsWildNone_dealFrom (deals : List (List Nat)) (g : Game) (i n : Nat)
    (h : HandsWildNone g) : HandsWildNone (dealFrom deals g i n) := by
  induction n generalizing g i with
  | zero => exact h
  | succ m ih =>
    rw [dealFrom]
    apply ih
    apply handsWildNone_drawCards
    exact handsWildNone_modify _ _ _ (fun r c hc => by simp at hc) h

theorem handsWildNone_startGame (g : Game) (deals : List (List Nat)) (ch : Choices)
    (h : HandsWildNone g) : HandsWildNone (startGame g deals ch).1 := by
  rw [startGame]
  exact handsWildNone_playCard _ _ _ _ (handsWildNone_dealFrom deals g 0 _ h)

theorem reachable_handsWildNone (g : Game) (h : Reachable g) : HandsWildNone g := by
  induction h with
  | init ps mk hps =>
    intro p hp c hc hw
    rw [hps p hp] at hc
    simp at hc
  | start deals ch hl _ ih => exact handsWildNone_startGame _ deals ch ih
  | play text ch roll _ ih => exact handsWildNone_playCard _ text ch roll ih
  | draw num picks _ ih => exact handsWildNone_drawCards _ num picks ih
  | drawSkip num picks s _ ih =>
    exact handsWildNone_nextTurn _ _ (handsWildNone_drawCards _ num picks ih)
  | call caller picks _ ih => exact handsWildNone_callUno _ caller picks ih
  | remove pid s _ ih => exact handsWildNone_removePlayer _ pid s ih
  | endg _ ih => exact handsWildNone_endGame _

/-- Players of the C7 trace: a human creator (id 10) and an NPC (id 20). -/
def psC7 : List Player := [⟨10, false, false, []⟩, ⟨20, true, false, []⟩]

/-- Dealing picks of the C7 trace: the human draws the first seven deck
cards; the NPC's picks avoid red and zero-rank cards. -/
def dealsC7 : List (List Nat) := [[0, 0, 0, 0, 0, 0, 0], [0, 0, 0, 0, 0, 2, 2]]

/-- First-play choices of the C7 trace: index 86 of the post-deal pool is a
Wild; color roll 0 picks RED; the random start lands on the human. -/
def chC7 : Choices := ⟨86, 0, 0, 1, []⟩

/-- The freshly created game of the C7 trace. -/
def gC7a : Game := initGame psC7 10

/-- After `startGame`: hands dealt and the Wild played as the first card
with chosen color RED. -/
def gC7b : Game := (startGame gC7a dealsC7 chC7).1

/-- After the human plays Red 0 (legal on the Wild by color): the Wild with
color RED is pushed to the tail of the pool (index 93). -/
def gC7c : Game := (playCard gC7b (some (Card.mk CardFace.ZERO Color.RED)) chDefault false).1

/-- NPC-turn choices of the C7 trace: the draw pick selects pool index 93,
the recycled Wild. -/
def chC7d : Choices := ⟨0, 0, 0, 0, [93]⟩

/-- After the NPC's turn: no card in its hand is legal on Red 0, so it
draws one card — the recycled Wild. -/
def gC7d : Game := (playCard gC7c none chC7d false).1

theorem gC7d_reachable : Reachable gC7d :=
  Reachable.play none chC7d false
    (Reachable.play (some (Card.mk CardFace.ZERO Color.RED)) chDefault false
      (Reachable.start dealsC7 chC7 (by decide) (Reachable.init psC7 10 (by decide))))

set_option maxRecDepth 10000 in
/-- C7 counterexample: in the reachable trace `gC7a → gC7b → gC7c → gC7d`,
the Wild instance is played with chosen color RED (`gC7b`), cycles back
into the pool still carrying RED (`gC7c`, pool index 93), and is then
drawn into the NPC's hand where `drawCards` resets its color to `NONE`
(`gC7d`) — its color IS `None` again in a later reachable state, refuting
the claim. -/
theorem wild_color_reset_counterexample :
    Reachable gC7d ∧
      gC7b.topCard = some (Card.mk CardFace.WILD Color.RED) ∧
      gC7c.discarded.getD 93 defaultCard = Card.mk CardFace.WILD Color.RED ∧
      (gC7d.players.getD 1 defaultPlayer).hand.getD 0 defaultCard
        = Card.mk CardFace.WILD Color.NONE ∧
      ((gC7d.players.getD 1 defaultPlayer).hand.getD 0 defaultCard).color = Color.NONE :=
  ⟨gC7d_reachable, by decide, by decide, by decide, by decide⟩

/-- C7 (amended): once a wild card is played its color holds the chooser's
pick only while it is the top card or in the pool; whenever it is drawn
back into a hand, `drawCards` resets its color to `NONE` — so in every
reachable state every wild-kind card held in any hand has color `NONE`. -/
theorem wild_in_hand_none (g : Game) (h : Reachable g) (p : Player)
    (hp : p ∈ g.players) (c : Card) (hc : c ∈ p.hand)
    (hw : c.face &&& CardFace.WILD_EFFECT ≠ 0) : c.color = Color.NONE :=
  reachable_handsWildNone g h p hp c hc hw

/-- The NPC of `gC7d`, holding the freshly drawn Wild at the head of its
hand. -/
def pC7W : Player := gC7d.players.getD 1 defaultPlayer

set_option maxRecDepth 10000 in
/-- Witness for the amended C7: the invariant applied at the concrete
reachable state `gC7d` to the drawn Wild. -/
theorem wild_in_hand_none_witness :
    pC7W ∈ gC7d.players ∧
      Card.mk CardFace.WILD Color.NONE ∈ pC7W.hand ∧
      (Card.mk CardFace.WILD Color.NONE).color = Color.NONE :=
  ⟨by decide, by decide,
    wild_in_hand_none gC7d gC7d_reachable pC7W (by decide)
      (Card.mk CardFace.WILD Color.NONE) (by decide) (by decide)⟩

/-! ## C8: creator removal -/

/-- A concrete game whose creator (id 1) is the player at index 0, holding
one card; the other participant is id 2. -/
def gC8 : Game :=
  { players := [⟨1, false, false, [Card.mk CardFace.ONE Color.RED]⟩, ⟨2, false, false, []⟩],
    discarded := [], topCard := none, turn := 1, previousTurn := -1, direction := 1,
    started := true, makerId := 1 }

/-- C8 (code bug): the claim matches the source's evident intent — the
guard `p.id == maker.id` in `removePlayer` and the `kick`/`leave` handlers'
refusal messages both aim to keep the creator in the game — but after the
source normalizes `p = p.id`, the guard reads `.id` of a primitive id,
which is `undefined` and never equal to `maker.id`, so `removePlayer`
called with the creator's id (bare or via a member object, which is
normalized to the same id) does remove the creator: here the player list
shrinks to the other participant and the creator's hand is discarded,
contradicting the claim that the game is left unchanged. -/
theorem remove_creator_bug :
    gC8.makerId = 1 ∧
      (gC8.players.getD 0 defaultPlayer).id = gC8.makerId ∧
      (removePlayer gC8 1 0).players = [⟨2, false, false, []⟩] ∧
      (removePlayer gC8 1 0).discarded = [Card.mk CardFace.ONE Color.RED] := by
  decide
